import Mathlib

/-
  Verification development for a biomarker-insight service.

  The service has three pure components that we embed here:

  * a reference-range resolver (`get_reference`) over a static table `ref`
    of per-biomarker rules keyed by gender token and inclusive age interval;
  * a recursive normalizer (`clean_json`) over JSON-like values that collapses
    dash runs and whitespace in strings, drops falsy list elements, and trims
    mapping keys;
  * a best-effort markdown report parser (`parse_medical_report`) that scans
    for section headings and extracts fields, leaving structural defaults
    when a section or sub-pattern is absent.

  All definitions below are translated directly from the source program.
-/

/-- A reference-range rule: gender token, inclusive age interval, textual
range expression, unit, and an optional free-text note. -/
structure Rule where
  gender : String
  age_min : Int
  age_max : Int
  range : String
  unit : String
  note : Option String
deriving DecidableEq, Repr

/-- Part 1 of the static reference table (split only to keep list literals small). -/
def refPart1 : List (String × List Rule) := [
  (("urea"), [⟨("all"), 0, 120, ("10-50"), ("mg/dL"), none⟩]),
  (("creatinine"), [⟨("male"), 18, 60, ("0.7-1.2"), ("mg/dL"), none⟩, ⟨("female"), 18, 60, ("0.5-0.9"), ("mg/dL"), none⟩, ⟨("male"), 60, 90, ("0.9-1.3"), ("mg/dL"), none⟩, ⟨("female"), 60, 90, ("0.6-1.2"), ("mg/dL"), none⟩, ⟨("children"), 0, 17, ("0.3-0.7"), ("mg/dL"), none⟩]),
  (("uric_acid"), [⟨("male"), 18, 120, ("3.5-7.2"), ("mg/dL"), none⟩, ⟨("female"), 18, 120, ("2.5-6.2"), ("mg/dL"), none⟩, ⟨("children"), 0, 17, ("2-5"), ("mg/dL"), none⟩]),
  (("calcium"), [⟨("all"), 0, 120, ("8.6-10.3"), ("mg/dL"), none⟩]),
  (("phosphorus"), [⟨("all"), 18, 120, ("2.5-4.5"), ("mg/dL"), none⟩, ⟨("children"), 0, 17, ("4-7"), ("mg/dL"), none⟩]),
  (("sodium"), [⟨("all"), 0, 120, ("135-145"), ("mmol/L"), none⟩]),
  (("potassium"), [⟨("all"), 0, 120, ("3.5-5.3"), ("mmol/L"), none⟩]),
  (("chloride"), [⟨("all"), 0, 120, ("90-110"), ("mmol/L"), none⟩]),
  (("amylase"), [⟨("all"), 0, 120, ("<90"), ("U/L"), none⟩]),
  (("lipase"), [⟨("all"), 0, 120, ("10-60"), ("U/L"), none⟩]),
  (("bicarbonate"), [⟨("all"), 0, 120, ("22-29"), ("mmol/L"), none⟩]),
  (("egfr"), [⟨("all"), 18, 120, (">60"), ("mL/min/1.73m2"), none⟩]),
  (("serum_osmolality"), [⟨("all"), 0, 120, ("240-321"), ("mmol/kg"), none⟩]),
  (("ionized_calcium"), [⟨("all"), 0, 120, ("1.09-1.33"), ("mmol/L"), none⟩]),
  (("wbc"), [⟨("all"), 18, 120, ("4.0-11.0"), ("10^3/uL"), none⟩]),
  (("hemoglobin"), [⟨("male"), 18, 120, ("14-18"), ("g/dL"), none⟩, ⟨("female"), 18, 120, ("12-15"), ("g/dL"), none⟩]),
  (("mcv"), [⟨("all"), 0, 120, ("80-100"), ("fL"), none⟩]),
  (("rdw"), [⟨("all"), 0, 120, ("11.5-14.5"), ("%"), none⟩]),
  (("lymphocytes"), [⟨("all"), 0, 120, ("20-40"), ("%"), none⟩]),
  (("fasting_blood_sugar"), [⟨("all"), 18, 120, ("<92"), ("mg/dL"), none⟩]),
  (("hb1ac"), [⟨("all"), 0, 120, ("4.0-5.6"), ("%"), none⟩]),
  (("insulin"), [⟨("all"), 18, 120, ("<17"), ("uIU/mL"), none⟩, ⟨("children"), 0, 17, ("1-17.5"), ("uIU/mL"), none⟩]),
  (("c_peptide"), [⟨("all"), 0, 120, ("0.78-5.19"), ("ng/mL"), none⟩]),
  (("homa_ir"), [⟨("all"), 0, 120, ("<2"), ("index"), none⟩]),
  (("total_cholesterol"), [⟨("all"), 0, 120, ("<200"), ("mg/dL"), none⟩])
]

/-- Part 2 of the static reference table (split only to keep list literals small). -/
def refPart2 : List (String × List Rule) := [
  (("ldl"), [⟨("all"), 0, 120, ("<100"), ("mg/dL"), none⟩]),
  (("hdl"), [⟨("all"), 0, 120, (">44"), ("mg/dL"), none⟩]),
  (("cholesterol_hdl_ratio"), [⟨("all"), 0, 120, ("2-5"), (""), none⟩]),
  (("triglycerides"), [⟨("all"), 0, 120, ("<150"), ("mg/dL"), none⟩]),
  (("apo_a1"), [⟨("male"), 18, 120, ("37.1-72.1"), ("umol/L"), none⟩, ⟨("female"), 18, 120, ("38.6-80.3"), ("umol/L"), none⟩]),
  (("apo_b"), [⟨("male"), 18, 120, ("80-155"), ("mg/dL"), none⟩, ⟨("female"), 18, 120, ("75-150"), ("mg/dL"), none⟩]),
  (("apo_ratio"), [⟨("all"), 0, 120, ("0.3-1.0"), (""), none⟩]),
  (("albumin"), [⟨("all"), 18, 60, ("3.5-5.2"), ("g/dL"), none⟩, ⟨("all"), 60, 120, ("2.9-4.6"), ("g/dL"), none⟩]),
  (("total_protein"), [⟨("all"), 0, 120, ("6.6-8.8"), ("g/dL"), none⟩]),
  (("alt"), [⟨("male"), 0, 120, ("10-50"), ("U/L"), none⟩, ⟨("female"), 0, 120, ("10-35"), ("U/L"), none⟩]),
  (("ast"), [⟨("male"), 0, 120, ("<50"), ("U/L"), none⟩, ⟨("female"), 0, 120, ("<35"), ("U/L"), none⟩]),
  (("alp"), [⟨("male"), 19, 120, ("40-129"), ("U/L"), none⟩, ⟨("female"), 17, 120, ("35-104"), ("U/L"), none⟩]),
  (("ggt"), [⟨("all"), 0, 120, ("5-36"), ("U/L"), none⟩]),
  (("ld"), [⟨("all"), 0, 120, ("140-280"), ("U/L"), none⟩]),
  (("globulin"), [⟨("all"), 0, 120, ("2.5-3.5"), ("g/dL"), none⟩]),
  (("albumin_globulin_ratio"), [⟨("all"), 0, 120, ("0.9-2.2"), (""), none⟩]),
  (("magnesium"), [⟨("all"), 18, 120, ("1.7-2.4"), ("mg/dL"), none⟩]),
  (("total_bilirubin"), [⟨("all"), 0, 120, ("0.1-1.1"), ("mg/dL"), none⟩]),
  (("direct_bilirubin"), [⟨("all"), 0, 120, ("<0.6"), ("mg/dL"), none⟩]),
  (("indirect_bilirubin"), [⟨("all"), 0, 120, ("0.1-1.0"), ("mg/dL"), none⟩]),
  (("ammonia"), [⟨("all"), 0, 120, ("15-50"), ("µg/dL"), none⟩]),
  (("hs_crp"), [⟨("all"), 18, 120, ("<3"), ("mg/L"), none⟩]),
  (("ck"), [⟨("male"), 18, 120, ("39-308"), ("U/L"), none⟩, ⟨("female"), 18, 120, ("26-192"), ("U/L"), none⟩]),
  (("ck_mb"), [⟨("all"), 18, 120, ("0-7.2"), ("ng/mL"), none⟩]),
  (("homocysteine"), [⟨("all"), 18, 120, ("<15"), ("umol/L"), none⟩])
]

/-- Part 3 of the static reference table (split only to keep list literals small). -/
def refPart3 : List (String × List Rule) := [
  (("zinc"), [⟨("all"), 0, 120, ("50-150"), ("ug/dL"), none⟩]),
  (("copper"), [⟨("male"), 18, 120, ("64-140"), ("ug/dL"), none⟩, ⟨("female"), 18, 120, ("70-159"), ("ug/dL"), none⟩]),
  (("selenium"), [⟨("all"), 0, 120, ("460-1430"), ("ug/L"), none⟩]),
  (("iron"), [⟨("all"), 0, 120, ("65-175"), ("ug/dL"), none⟩]),
  (("tibc"), [⟨("all"), 18, 120, ("250-400"), ("ug/dL"), none⟩]),
  (("transferrin"), [⟨("all"), 18, 120, ("174-364"), ("mg/dL"), none⟩]),
  (("vitamin_d"), [⟨("all"), 0, 120, ("30-150"), ("ng/mL"), none⟩]),
  (("vitamin_b12"), [⟨("all"), 0, 120, ("187-883"), ("pg/mL"), none⟩]),
  (("total_testosterone"), [⟨("male"), 21, 49, ("240-870"), ("ng/dL"), none⟩, ⟨("male"), 50, 120, ("221-715"), ("ng/dL"), none⟩, ⟨("female"), 21, 49, ("14-53"), ("ng/dL"), none⟩, ⟨("female"), 50, 120, ("12-36"), ("ng/dL"), none⟩]),
  (("free_testosterone"), [⟨("male"), 18, 120, ("8-34"), ("pg/mL"), none⟩, ⟨("female"), 18, 120, ("<4.4"), ("pg/mL"), none⟩]),
  (("estrogen"), [⟨("female"), 18, 50, ("30-400"), ("pg/mL"), some ("varies with cycle")⟩, ⟨("female"), 50, 120, ("0-30"), ("pg/mL"), some ("postmenopausal")⟩]),
  (("progesterone"), [⟨("female"), 18, 50, ("0-1"), ("ng/mL"), some ("follicular phase")⟩, ⟨("female"), 18, 50, ("5-20"), ("ng/mL"), some ("luteal phase")⟩, ⟨("female"), 50, 120, ("0.09-0.78"), ("ng/mL"), some ("postmenopause")⟩]),
  (("dhea_s"), [⟨("all"), 0, 120, ("65.1-368"), ("ug/dL"), none⟩]),
  (("shbg"), [⟨("all"), 0, 120, ("11-78"), ("nmol/L"), some ("values <11 considered low, >78 high")⟩]),
  (("lh"), [⟨("female"), 18, 120, ("2.1-11.2"), ("mIU/mL"), some ("follicular phase")⟩, ⟨("female"), 18, 120, ("20-95"), ("mIU/mL"), some ("mid-cycle peak")⟩, ⟨("female"), 18, 120, ("1.2-11.2"), ("mIU/mL"), some ("luteal phase")⟩, ⟨("female"), 51, 120, ("10-60"), ("mIU/mL"), some ("postmenopausal")⟩, ⟨("male"), 18, 120, ("1.1-10"), ("mIU/mL"), none⟩]),
  (("fsh"), [⟨("female"), 18, 120, ("2.5-10.2"), ("mIU/mL"), some ("follicular phase")⟩, ⟨("female"), 18, 120, ("3.4-33.4"), ("mIU/mL"), some ("mid-cycle peak")⟩, ⟨("female"), 18, 120, ("1.5-9.1"), ("mIU/mL"), some ("luteal phase")⟩, ⟨("female"), 51, 120, ("16-120"), ("mIU/mL"), some ("postmenopausal")⟩, ⟨("male"), 18, 120, ("1-9.3"), ("mIU/mL"), none⟩]),
  (("tsh"), [⟨("all"), 0, 120, ("0.4-4.5"), ("uIU/mL"), some ("trimester-specific ranges exist")⟩]),
  (("free_t3"), [⟨("all"), 0, 120, ("2-4.2"), ("pg/mL"), none⟩]),
  (("free_t4"), [⟨("all"), 0, 120, ("0.9-1.75"), ("ng/dL"), none⟩]),
  (("total_t3"), [⟨("all"), 20, 50, ("0.7-2.07"), ("ng/mL"), some ("adults 20-50")⟩, ⟨("all"), 50, 90, ("0.35-1.93"), ("ng/mL"), some ("adults 50-90")⟩]),
  (("total_t4"), [⟨("all"), 0, 120, ("4.87-11.72"), ("ug/dL"), none⟩]),
  (("reverse_t3"), [⟨("all"), 0, 120, ("9-24"), ("ng/dL"), some ("commonly used reference (lab-specific)")⟩]),
  (("tpo_ab"), [⟨("all"), 0, 120, ("0-5.61"), ("IU/mL"), none⟩]),
  (("tg_ab"), [⟨("all"), 0, 120, ("<115"), ("IU/mL"), none⟩]),
  (("cortisol"), [⟨("all"), 0, 120, ("5.9-19.9"), ("ug/dL"), some ("AM value typical; time-of-day matters")⟩])
]

/-- Part 4 of the static reference table (split only to keep list literals small). -/
def refPart4 : List (String × List Rule) := [
  (("acth"), [⟨("all"), 0, 120, ("7.2-63.3"), ("pg/mL"), none⟩]),
  (("igf1"), [⟨("female"), 18, 120, ("75-850"), ("ng/mL"), none⟩, ⟨("male"), 18, 120, ("80-900"), ("ng/mL"), none⟩]),
  (("leptin"), [⟨("male"), 18, 120, ("0.5-15"), ("ng/mL"), some ("wide variance by adiposity; females generally higher")⟩, ⟨("female"), 18, 120, ("2-20"), ("ng/mL"), none⟩]),
  (("adiponectin"), [⟨("all"), 18, 120, ("2.5-6.0"), ("µg/mL"), some ("lab-dependent; values may be reported in mg/L")⟩]),
  (("ca125"), [⟨("all"), 18, 120, ("<35"), ("U/mL"), none⟩]),
  (("ca15_3"), [⟨("all"), 18, 120, ("<35"), ("U/mL"), none⟩]),
  (("ca19_9"), [⟨("all"), 18, 120, ("<37"), ("U/mL"), none⟩]),
  (("psa"), [⟨("male"), 18, 120, ("0-4"), ("ng/mL"), none⟩]),
  (("cea"), [⟨("all"), 18, 120, ("<5"), ("ng/mL"), some ("smokers may have <10")⟩]),
  (("calcitonin"), [⟨("all"), 0, 120, ("<10"), ("pg/mL"), some ("lab-dependent; many labs use <10 pg/mL as normal")⟩]),
  (("afp"), [⟨("all"), 0, 120, ("<8.7"), ("ng/mL"), none⟩]),
  (("tnf"), [⟨("all"), 0, 120, ("0-8.1"), ("pg/mL"), some ("assay-dependent")⟩]),
  (("ana"), [⟨("all"), 0, 120, ("<1:80"), ("titer"), some ("interpretation requires pattern and titre")⟩]),
  (("ige"), [⟨("all"), 0, 120, ("0-200"), ("IU/mL"), none⟩]),
  (("igg"), [⟨("all"), 18, 120, ("7-16"), ("g/L"), some ("lab-dependent; pediatric ranges differ")⟩]),
  (("anti_ccp"), [⟨("all"), 0, 120, ("<17"), ("U/mL"), none⟩]),
  (("dsdna"), [⟨("all"), 0, 120, ("0-6"), ("U/mL"), some ("7-12 borderline, >12 positive (lab dependent)")⟩]),
  (("ssa_ssb"), [⟨("all"), 0, 120, ("<5"), ("U/mL"), some ("many labs differ; treat as qualitative")⟩]),
  (("rnp"), [⟨("all"), 0, 120, ("<5"), ("AU/mL"), none⟩]),
  (("sm_antibodies"), [⟨("all"), 0, 120, ("<0.5"), ("index"), some ("lab-dependent")⟩]),
  (("anca"), [⟨("all"), 0, 120, ("<1:20"), ("titer"), some ("pattern (c-ANCA/p-ANCA) matters")⟩]),
  (("anti_ena"), [⟨("all"), 0, 120, ("<0.5"), ("index"), some ("extractable nuclear antigen panel")⟩]),
  (("il6"), [⟨("all"), 0, 120, ("<7"), ("pg/mL"), some ("assay-dependent; elevated in inflammation")⟩]),
  (("allergy_panel"), [⟨("all"), 0, 120, ("lab-specific"), (""), some ("results vary widely by allergens tested; report as specific IgE values per allergen")⟩])
]

/-- The static reference table, keyed by biomarker name, transcribed verbatim
from the source program. -/
def ref : List (String × List Rule) := refPart1 ++ refPart2 ++ refPart3 ++ refPart4

/-- Python `ref.get(name, [])`: the rules registered for a biomarker, or `[]`. -/
def refEntries (name : String) : List Rule :=
  match ref.find? (fun p => p.1 == name) with
  | some p => p.2
  | none => []

/-- The reference resolver.  Filters the registered rules to those whose
gender token equals the query gender or the sentinel "all", then to those
whose inclusive age interval contains the query age; if that is empty, falls
back to all rules tagged gender "all", ignoring age. -/
def get_reference (biomarker_name : String) (age : Int) (gender : String) : List Rule :=
  let entries := refEntries biomarker_name
  let gfiltered := entries.filter (fun e => e.gender == gender || e.gender == ("all"))
  let afinal := gfiltered.filter (fun e => decide (e.age_min ≤ age) && decide (age ≤ e.age_max))
  if afinal.isEmpty then entries.filter (fun e => e.gender == ("all")) else afinal

def isWS (c : Char) : Bool :=
  c = ' ' || c = '\t' || c = '\n' || c = '\r' || c = '\x0b' || c = '\x0c'

def remDash : List Char → Nat → List Char
  | [], pending => if 3 ≤ pending then [] else List.replicate pending '-'
  | c :: rest, pending =>
    if c = '-' then remDash rest (pending + 1)
    else (if 3 ≤ pending then [] else List.replicate pending '-') ++ (c :: remDash rest 0)

def collWS : List Char → Bool → List Char
  | [], pending => if pending then [' '] else []
  | c :: rest, pending =>
    if isWS c then collWS rest true
    else (if pending then [' '] else []) ++ (c :: collWS rest false)

def pyStrip (p : Char → Bool) (l : List Char) : List Char :=
  ((l.dropWhile p).reverse.dropWhile p).reverse

def stripSet (c : Char) : Bool := c = ' ' || c = '-' || c = '\n' || c = '\t' || c = '\r'

def cleanChars (l : List Char) : List Char :=
  pyStrip stripSet (collWS (remDash l 0) false)

/-- No three consecutive dash characters occur. -/
def noTriple : List Char → Bool
  | a :: b :: c :: rest => !((a == '-') && (b == '-') && (c == '-')) && noTriple (b :: c :: rest)
  | _ => true

/-- No two consecutive whitespace characters occur. -/
def noDblWS : List Char → Bool
  | a :: b :: rest => !(isWS a && isWS b) && noDblWS (b :: rest)
  | _ => true

/-- Every whitespace character is a plain space. -/
def allSp (l : List Char) : Bool := l.all (fun c => !(isWS c) || c == ' ')

/-- The list starts with two dashes. -/
def twoDash : List Char → Bool
  | a :: b :: _ => (a == '-') && (b == '-')
  | _ => false

/-- The list is empty or starts with a non-whitespace character. -/
def headNonWS : List Char → Prop
  | [] => True
  | b :: _ => isWS b = false

def cleanStr (s : String) : String := String.mk (cleanChars s.data)

def pyStripWS (s : String) : String := String.mk (pyStrip isWS s.data)

inductive Json where
  | str : String → Json
  | num : Int → Json
  | bool : Bool → Json
  | null : Json
  | list : List Json → Json
  | dict : List (String × Json) → Json
deriving Repr

def truthy : Json → Bool
  | .str s => !(s == (""))
  | .num n => !(n == 0)
  | .bool b => b
  | .null => false
  | .list xs => !xs.isEmpty
  | .dict kvs => !kvs.isEmpty

def upsert (acc : List (String × Json)) (k : String) (v : Json) : List (String × Json) :=
  if acc.any (fun p => p.1 == k) then acc.map (fun p => if p.1 == k then (k, v) else p)
  else acc ++ [(k, v)]

def buildDict (l : List (String × Json)) : List (String × Json) :=
  l.foldl (fun acc p => upsert acc p.1 p.2) []

mutual
def clean_json : Json → Json
  | .str s => .str (cleanStr s)
  | .num n => .num n
  | .bool b => .bool b
  | .null => .null
  | .list xs => .list (cleanList xs)
  | .dict kvs => .dict (buildDict (cleanEntries kvs))

def cleanList : List Json → List Json
  | [] => []
  | i :: rest =>
    (if truthy i && truthy (clean_json i) then [clean_json i] else []) ++ cleanList rest

def cleanEntries : List (String × Json) → List (String × Json)
  | [] => []
  | (k, v) :: rest => (pyStripWS k, clean_json v) :: cleanEntries rest
end

def keysOf (l : List (String × Json)) : List String := l.map Prod.fst

mutual
/-- The strings occurring in value position (string leaves) of a JSON value. -/
def valStrings : Json → List String
  | .str s => [s]
  | .num _ => []
  | .bool _ => []
  | .null => []
  | .list xs => valStringsL xs
  | .dict kvs => valStringsE kvs

def valStringsL : List Json → List String
  | [] => []
  | i :: rest => valStrings i ++ valStringsL rest

def valStringsE : List (String × Json) → List String
  | [] => []
  | (_, v) :: rest => valStrings v ++ valStringsE rest
end

mutual
/-- Every string reachable in a JSON value, mapping keys included. -/
def allStrings : Json → List String
  | .str s => [s]
  | .num _ => []
  | .bool _ => []
  | .null => []
  | .list xs => allStringsL xs
  | .dict kvs => allStringsE kvs

def allStringsL : List Json → List String
  | [] => []
  | i :: rest => allStrings i ++ allStringsL rest

def allStringsE : List (String × Json) → List String
  | [] => []
  | (k, v) :: rest => k :: (allStrings v ++ allStringsE rest)
end

/-- Dict lookup: value of the (unique) entry with the given key. -/
def findVal (l : List (String × Json)) (k : String) : Option Json :=
  (l.find? (fun p => p.1 == k)).map Prod.snd

/-- Value of the last entry with the given key, if any. -/
def lastVal : List (String × Json) → String → Option Json
  | [], _ => none
  | (k2, v2) :: r, k =>
    match lastVal r k with
    | some v => some v
    | none => if k2 == k then some v2 else none

/-- Value of the last entry whose stripped key is the given key, cleaned. -/
def lastStripVal : List (String × Json) → String → Option Json
  | [], _ => none
  | (k2, v2) :: r, k =>
    match lastStripVal r k with
    | some v => some v
    | none => if pyStripWS k2 == k then some (clean_json v2) else none

def isHash3 : List Char → Bool
  | a :: b :: c :: _ => (a == '#') && (b == '#') && (c == '#')
  | _ => false

def isStar2 : List Char → Bool
  | a :: b :: _ => (a == '*') && (b == '*')
  | _ => false

def stripCI : List Char → List Char → Option (List Char)
  | [], l => some l
  | _ :: _, [] => none
  | p :: ps, c :: cs => if p.toLower == c.toLower then stripCI ps cs else none

def capUntilHash : List Char → List Char
  | [] => []
  | c :: rest =>
    if isHash3 (c :: rest) then []
    else if c = '\n' && rest.isEmpty then []
    else c :: capUntilHash rest

def capUntilStars : List Char → List Char
  | [] => []
  | c :: rest =>
    if isStar2 (c :: rest) then []
    else if c = '\n' && rest.isEmpty then []
    else c :: capUntilStars rest

def findSec (header : List Char) : List Char → Option (List Char)
  | [] => none
  | c :: rest =>
    if isHash3 (c :: rest) then
      match stripCI header (((c :: rest).drop 3).dropWhile isWS) with
      | some tail => some (capUntilHash tail)
      | none => findSec header rest
    else findSec header rest

def findSecG (header : List Char) : List Char → Option (List Char)
  | [] => none
  | c :: rest =>
    if isHash3 (c :: rest) then
      match stripCI header (((c :: rest).drop 3).dropWhile isWS) with
      | some tail => some tail
      | none => findSecG header rest
    else findSecG header rest

def findClose : List Char → Option (List Char)
  | [] => none
  | c :: rest => if isStar2 (c :: rest) then some ((c :: rest).drop 2) else findClose rest

def searchSub (pat : List Char) : List Char → Option (List Char)
  | [] => none
  | c :: rest =>
    if isStar2 (c :: rest) then
      match stripCI pat ((c :: rest).drop 2) with
      | some a2 =>
        match findClose a2 with
        | some a3 => some (capUntilStars a3)
        | none => searchSub pat rest
      | none => searchSub pat rest
    else searchSub pat rest

def statusLabel : List Char := ("Status:").data

def explLabel : List Char := ("Explanation:").data

def capStatus : List Char → List Char
  | [] => []
  | c :: rest =>
    if (stripCI explLabel ((c :: rest).dropWhile isWS)).isSome then []
    else if c = '\n' && rest.isEmpty then []
    else c :: capStatus rest

def searchStatus : List Char → Option (List Char)
  | [] => none
  | c :: rest =>
    match stripCI statusLabel (c :: rest) with
    | some a => some (capStatus (a.dropWhile isWS))
    | none => searchStatus rest

def searchExpl : List Char → Option (List Char)
  | [] => none
  | c :: rest =>
    match stripCI explLabel (c :: rest) with
    | some a => some (a.dropWhile isWS)
    | none => searchExpl rest

def pyReplace2 (a b : Char) : List Char → List Char
  | x :: y :: rest =>
    if x = a && y = b then pyReplace2 a b rest else x :: pyReplace2 a b (y :: rest)
  | l => l

def pyReplace3 (a b c : Char) : List Char → List Char
  | x :: y :: z :: rest =>
    if x = a && y = b && z = c then pyReplace3 a b c rest
    else x :: pyReplace3 a b c (y :: z :: rest)
  | l => l

def clean_line (t : List Char) : String :=
  String.mk (pyStrip isWS (pyReplace3 '#' '#' '#' (pyReplace2 '*' '*' (pyStrip isWS t))))

inductive NumSt where
  | scan : NumSt
  | indig : NumSt
  | skipws : NumSt
  | cap : List Char → NumSt

def findNumsGo : List Char → NumSt → List (List Char)
  | [], NumSt.skipws => [[]]
  | [], NumSt.cap acc => [acc.reverse]
  | [], NumSt.scan => []
  | [], NumSt.indig => []
  | c :: rest, NumSt.scan =>
    if c.isDigit then findNumsGo rest NumSt.indig else findNumsGo rest NumSt.scan
  | c :: rest, NumSt.indig =>
    if c.isDigit then findNumsGo rest NumSt.indig
    else if c = '.' then findNumsGo rest NumSt.skipws
    else findNumsGo rest NumSt.scan
  | c :: rest, NumSt.skipws =>
    if isWS c then findNumsGo rest NumSt.skipws else findNumsGo rest (NumSt.cap [c])
  | c :: rest, NumSt.cap acc =>
    if c = '\n' then acc.reverse :: findNumsGo rest NumSt.scan
    else findNumsGo rest (NumSt.cap (c :: acc))

def findNums (l : List Char) : List (List Char) := findNumsGo l NumSt.scan

inductive DashSt where
  | scan : DashSt
  | skipws : DashSt
  | cap : List Char → DashSt

def findDashesGo : List Char → DashSt → List (List Char)
  | [], DashSt.skipws => [[]]
  | [], DashSt.cap acc => [acc.reverse]
  | [], DashSt.scan => []
  | c :: rest, DashSt.scan =>
    if c = '-' then findDashesGo rest DashSt.skipws else findDashesGo rest DashSt.scan
  | c :: rest, DashSt.skipws =>
    if isWS c then findDashesGo rest DashSt.skipws else findDashesGo rest (DashSt.cap [c])
  | c :: rest, DashSt.cap acc =>
    if c = '\n' then acc.reverse :: findDashesGo rest DashSt.scan
    else findDashesGo rest (DashSt.cap (c :: acc))

def findDashes (l : List Char) : List (List Char) := findDashesGo l DashSt.scan

def pyCapitalize : List Char → List Char
  | [] => []
  | c :: rest => c.toUpper :: rest.map Char.toLower

def planLabel (field : List Char) : List Char :=
  '*' :: '*' :: ((pyCapitalize field).map (fun c => if c = '_' then ' ' else c)
    ++ (':' :: '*' :: '*' :: []))

def searchPlan (label : List Char) : List Char → Option (List Char)
  | [] => none
  | c :: rest =>
    match stripCI label (c :: rest) with
    | some a => some ((a.dropWhile isWS).takeWhile (fun d => !(d == '\n')))
    | none => searchPlan label rest

def hdrExec : List Char := ("Executive Summary").data

def hdrSys : List Char := ("System-Specific Analysis").data

def hdrPlan : List Char := ("Personalized Action Plan").data

def hdrAlerts : List Char := ("Interaction Alerts").data

structure SysEntry where
  status : String
  explanation : String
deriving DecidableEq, Repr

structure ExecSummary where
  top_health_priorities : List String
  key_strengths : List String
deriving DecidableEq, Repr

structure SystemAnalysis where
  kidney_function_test : SysEntry
  basic_checkup_cbc_hematology : SysEntry
  hormone_profile_comprehensive : SysEntry
  liver_function_test : SysEntry
  diabetic_profile : SysEntry
  lipid_profile : SysEntry
  cardiac_profile : SysEntry
  mineral_heavy_metal : SysEntry
  iron_profile : SysEntry
  bone_health : SysEntry
  vitamins : SysEntry
  thyroid_profile : SysEntry
  adrenal_stress_hormones : SysEntry
  blood_marker_cancer_profile : SysEntry
  immune_profile : SysEntry
deriving DecidableEq, Repr

structure ActionPlan where
  nutrition : String
  lifestyle : String
  testing : String
  medical_consultation : String
deriving DecidableEq, Repr

structure ParsedReport where
  executive_summary : ExecSummary
  system_analysis : SystemAnalysis
  personalized_action_plan : ActionPlan
  interaction_alerts : List String
deriving DecidableEq, Repr

def emptySE : SysEntry := ⟨(""), ("")⟩

def defaultSys : SystemAnalysis :=
  ⟨emptySE, emptySE, emptySE, emptySE, emptySE, emptySE, emptySE, emptySE,
    emptySE, emptySE, emptySE, emptySE, emptySE, emptySE, emptySE⟩

def defaultReport : ParsedReport :=
  ⟨⟨[], []⟩, defaultSys, ⟨(""), (""), (""), ("")⟩, []⟩

def extract_status_and_explanation (block : List Char) : SysEntry :=
  ⟨(match searchStatus block with
    | some g => clean_line g
    | none => ("")),
   (match searchExpl block with
    | some g => clean_line g
    | none => (""))⟩

def sysEntry (pat : List Char) (sysBlock : List Char) : SysEntry :=
  match searchSub pat sysBlock with
  | some blk => extract_status_and_explanation blk
  | none => emptySE

def planField (field : List Char) (pb : List Char) : String :=
  match searchPlan (planLabel field) pb with
  | some cap => clean_line cap
  | none => ("")

def parse_medical_report (text : List Char) : ParsedReport :=
  ⟨(match findSec hdrExec text with
    | some block =>
        ⟨(findNums block).map clean_line, (findDashes block).map clean_line⟩
    | none => ⟨[], []⟩),
   (match findSec hdrSys text with
    | some sb =>
        ⟨sysEntry (("Kidney Function Test").data) sb,
         sysEntry (("Basic Check-up").data) sb,
         sysEntry (("Hormone Profile").data) sb,
         sysEntry (("Liver Function Test").data) sb,
         sysEntry (("Diabetic Profile").data) sb,
         sysEntry (("Lipid Profile").data) sb,
         sysEntry (("Cardiac Profile").data) sb,
         sysEntry (("Mineral & Heavy Metal").data) sb,
         sysEntry (("Iron Profile").data) sb,
         sysEntry (("Bone Health").data) sb,
         sysEntry (("Vitamins").data) sb,
         sysEntry (("Thyroid Profile").data) sb,
         sysEntry (("Adrenal Function").data) sb,
         sysEntry (("Blood Marker Cancer Profile").data) sb,
         sysEntry (("Immune Profile").data) sb⟩
    | none => defaultSys),
   (match findSec hdrPlan text with
    | some pb =>
        ⟨planField (("nutrition").data) pb,
         planField (("lifestyle").data) pb,
         planField (("testing").data) pb,
         planField (("medical_consultation").data) pb⟩
    | none => ⟨(""), (""), (""), ("")⟩),
   (match findSecG hdrAlerts text with
    | some ab => (findDashes ab).map clean_line
    | none => [])⟩

/-- C1: for every biomarker registered in the reference table and every
(age, gender) pair, if some registered rule both matches the gender (its
token is the queried gender or "all") and contains the age in its inclusive
interval, then every rule returned by `get_reference` matches the gender and
contains the age; otherwise `get_reference` returns exactly the rules of that
biomarker tagged gender "all", ignoring age. -/
theorem get_reference_spec (name : String) (age : Int) (gender : String)
    (hreg : (ref.find? (fun p => p.1 == name)).isSome) :
    if (refEntries name).any
        (fun e => (e.gender == gender || e.gender == ("all"))
          && (decide (e.age_min ≤ age) && decide (age ≤ e.age_max))) then
      ∀ r ∈ get_reference name age gender,
        (r.gender = gender ∨ r.gender = ("all")) ∧ r.age_min ≤ age ∧ age ≤ r.age_max
    else
      get_reference name age gender = (refEntries name).filter (fun e => e.gender == ("all")) := by
  clear hreg
  have hmem : ∀ e : Rule,
      e ∈ ((refEntries name).filter (fun e => e.gender == gender || e.gender == ("all"))).filter
            (fun e => decide (e.age_min ≤ age) && decide (age ≤ e.age_max)) ↔
        (e ∈ refEntries name ∧
          ((e.gender == gender || e.gender == ("all"))
            && (decide (e.age_min ≤ age) && decide (age ≤ e.age_max))) = true) := by
    intro e
    simp only [List.mem_filter, Bool.and_eq_true, and_assoc]
  by_cases hany : ((refEntries name).any
      (fun e => (e.gender == gender || e.gender == ("all"))
        && (decide (e.age_min ≤ age) && decide (age ≤ e.age_max)))) = true
  · rw [if_pos hany]
    have hne : ¬ (((refEntries name).filter (fun e => e.gender == gender || e.gender == ("all"))).filter
          (fun e => decide (e.age_min ≤ age) && decide (age ≤ e.age_max))).isEmpty = true := by
      rw [List.isEmpty_iff]
      rw [List.any_eq_true] at hany
      obtain ⟨e, he, hc⟩ := hany
      intro hnil
      have hin : e ∈ ((refEntries name).filter (fun e => e.gender == gender || e.gender == ("all"))).filter
            (fun e => decide (e.age_min ≤ age) && decide (age ≤ e.age_max)) :=
        (hmem e).mpr ⟨he, hc⟩
      rw [hnil] at hin
      exact (List.not_mem_nil e) hin
    intro r hr
    unfold get_reference at hr
    rw [if_neg hne] at hr
    have hr2 := (hmem r).mp hr
    obtain ⟨hre, hc⟩ := hr2
    rw [Bool.and_eq_true, Bool.or_eq_true, beq_iff_eq, beq_iff_eq,
      Bool.and_eq_true, decide_eq_true_eq, decide_eq_true_eq] at hc
    exact ⟨hc.1, hc.2⟩
  · rw [if_neg hany]
    have hnil : ((refEntries name).filter (fun e => e.gender == gender || e.gender == ("all"))).filter
          (fun e => decide (e.age_min ≤ age) && decide (age ≤ e.age_max)) = [] := by
      rw [List.eq_nil_iff_forall_not_mem]
      intro e he
      have h2 := (hmem e).mp he
      exact hany (List.any_eq_true.mpr ⟨e, h2.1, h2.2⟩)
    unfold get_reference
    rw [if_pos (by rw [hnil]; rfl)]

/-- Witness for C1 at a concrete registered biomarker and query. -/
theorem get_reference_spec_witness :
    ((ref.find? (fun p => p.1 == ("urea"))).isSome) ∧
    (if (refEntries ("urea")).any
        (fun e => (e.gender == ("male") || e.gender == ("all"))
          && (decide (e.age_min ≤ (30 : Int)) && decide ((30 : Int) ≤ e.age_max))) then
      ∀ r ∈ get_reference ("urea") 30 ("male"),
        (r.gender = ("male") ∨ r.gender = ("all")) ∧ r.age_min ≤ 30 ∧ (30 : Int) ≤ r.age_max
    else
      get_reference ("urea") 30 ("male")
        = (refEntries ("urea")).filter (fun e => e.gender == ("all"))) :=
  ⟨by decide, get_reference_spec ("urea") 30 ("male") (by decide)⟩

/-- C3: resolving creatinine at age 10 for gender "female" yields the empty
list: neither female-tagged rule contains age 10, the children-tagged rule
does not match gender "female", and no creatinine rule is tagged "all". -/
theorem creatinine_female10_empty :
    get_reference ("creatinine") 10 ("female") = [] := by decide

/-- C10: the gender argument is matched verbatim against rule tags, so the
tag "children" is reachable as a query gender: resolving creatinine at age 10
for gender "children" returns exactly the children-tagged rule. -/
theorem creatinine_children10 :
    get_reference ("creatinine") 10 ("children")
      = [⟨("children"), 0, 17, ("0.3-0.7"), ("mg/dL"), none⟩] := by decide

theorem noTriple_tail (a : Char) (l : List Char) (h : noTriple (a :: l)) : noTriple l := by
  match l with
  | [] => rfl
  | [b] => rfl
  | b :: c :: r =>
    rw [noTriple, Bool.and_eq_true] at h
    exact h.2

theorem noTriple_cons (a : Char) (l : List Char)
    (h1 : a ≠ '-' ∨ twoDash l = false) (h2 : noTriple l) : noTriple (a :: l) := by
  match l with
  | [] => rfl
  | [b] => rfl
  | b :: c :: r =>
    rw [noTriple, Bool.and_eq_true]
    refine ⟨?_, h2⟩
    rcases h1 with h1 | h1
    · simp [h1]
    · have hb : ¬ (b = '-' ∧ c = '-') := by
        intro hbc
        rw [twoDash, hbc.1, hbc.2] at h1
        simp at h1
      by_cases hbb : b = '-'
      · have hc : c ≠ '-' := fun hc => hb ⟨hbb, hc⟩
        simp [hc]
      · simp [hbb]

theorem noTriple_append_left (l₁ l₂ : List Char) (h : noTriple (l₁ ++ l₂)) : noTriple l₁ := by
  induction l₁ with
  | nil => rfl
  | cons a t iht =>
    match t with
    | [] => rfl
    | [b] => rfl
    | b :: c :: v =>
      rw [List.cons_append, List.cons_append, List.cons_append, noTriple, Bool.and_eq_true] at h
      rw [noTriple, Bool.and_eq_true]
      exact ⟨h.1, iht h.2⟩

theorem noTriple_append_right (l₁ l₂ : List Char) (h : noTriple (l₁ ++ l₂)) : noTriple l₂ := by
  induction l₁ with
  | nil => exact h
  | cons a t iht =>
    rw [List.cons_append] at h
    exact iht (noTriple_tail a _ h)

theorem noTriple_dropWhile (p : Char → Bool) (l : List Char) (h : noTriple l) :
    noTriple (l.dropWhile p) := by
  induction l with
  | nil => rfl
  | cons a t iht =>
    rw [List.dropWhile_cons]
    by_cases hp : p a = true
    · simp only [hp, if_true]
      exact iht (noTriple_tail a t h)
    · simp only [hp, if_false]
      exact h

theorem noDbl_tail (a : Char) (l : List Char) (h : noDblWS (a :: l)) : noDblWS l := by
  match l with
  | [] => rfl
  | b :: r =>
    rw [noDblWS, Bool.and_eq_true] at h
    exact h.2

theorem noDbl_cons (a : Char) (l : List Char)
    (h1 : isWS a = false ∨ (match l with | [] => True | b :: _ => isWS b = false))
    (h2 : noDblWS l) : noDblWS (a :: l) := by
  match l with
  | [] => rfl
  | b :: r =>
    rw [noDblWS, Bool.and_eq_true]
    refine ⟨?_, h2⟩
    rcases h1 with h1 | h1
    · simp [h1]
    · simp only [] at h1
      simp [h1]

theorem noDbl_append_left (l₁ l₂ : List Char) (h : noDblWS (l₁ ++ l₂)) : noDblWS l₁ := by
  induction l₁ with
  | nil => rfl
  | cons a t iht =>
    match t with
    | [] => rfl
    | b :: v =>
      rw [List.cons_append, List.cons_append, noDblWS, Bool.and_eq_true] at h
      rw [noDblWS, Bool.and_eq_true]
      exact ⟨h.1, iht h.2⟩

theorem noDbl_dropWhile (p : Char → Bool) (l : List Char) (h : noDblWS l) :
    noDblWS (l.dropWhile p) := by
  induction l with
  | nil => rfl
  | cons a t iht =>
    rw [List.dropWhile_cons]
    by_cases hp : p a = true
    · simp only [hp, if_true]
      exact iht (noDbl_tail a t h)
    · simp only [hp, if_false]
      exact h

theorem allSp_mem (l : List Char) (h : allSp l) (c : Char) (hc : c ∈ l) :
    !(isWS c) || c == ' ' := by
  rw [allSp, List.all_eq_true] at h
  exact h c hc

theorem allSp_of_mem (l : List Char) (h : ∀ c ∈ l, (!(isWS c) || c == ' ') = true) : allSp l := by
  rw [allSp, List.all_eq_true]
  exact h

theorem allSp_sub (l m : List Char) (h : allSp l) (hsub : ∀ c, c ∈ m → c ∈ l) : allSp m :=
  allSp_of_mem m (fun c hc => allSp_mem l h c (hsub c hc))

theorem noTriple_pyStrip (p : Char → Bool) (l : List Char) (h : noTriple l) :
    noTriple (pyStrip p l) := by
  rw [pyStrip]
  have hm : noTriple (l.dropWhile p) := noTriple_dropWhile p l h
  have hdec : (l.dropWhile p) =
      ((l.dropWhile p).reverse.dropWhile p).reverse
        ++ ((l.dropWhile p).reverse.takeWhile p).reverse := by
    rw [← List.reverse_append, List.takeWhile_append_dropWhile, List.reverse_reverse]
  rw [hdec] at hm
  exact noTriple_append_left _ _ hm

theorem noDbl_pyStrip (p : Char → Bool) (l : List Char) (h : noDblWS l) :
    noDblWS (pyStrip p l) := by
  rw [pyStrip]
  have hm : noDblWS (l.dropWhile p) := noDbl_dropWhile p l h
  have hdec : (l.dropWhile p) =
      ((l.dropWhile p).reverse.dropWhile p).reverse
        ++ ((l.dropWhile p).reverse.takeWhile p).reverse := by
    rw [← List.reverse_append, List.takeWhile_append_dropWhile, List.reverse_reverse]
  rw [hdec] at hm
  exact noDbl_append_left _ _ hm

theorem allSp_pyStrip (p : Char → Bool) (l : List Char) (h : allSp l) :
    allSp (pyStrip p l) := by
  refine allSp_sub l _ h (fun c hc => ?_)
  rw [pyStrip] at hc
  rw [List.mem_reverse] at hc
  have h1 := List.dropWhile_sublist (l := (l.dropWhile p).reverse) (p := p)
  have h2 := h1.mem hc
  rw [List.mem_reverse] at h2
  exact (List.dropWhile_sublist (l := l) (p := p)).mem h2

theorem twoDash_cons_of_ne (x : Char) (l : List Char) (hx : (x == '-') = false) :
    twoDash (x :: l) = false := by
  match l with
  | [] => rfl
  | b :: r =>
    rw [twoDash]
    simp [hx]

theorem twoDash_cons_cons_of_ne (x y : Char) (l : List Char) (hy : (y == '-') = false) :
    twoDash (x :: y :: l) = false := by
  rw [twoDash]
  simp [hy]

theorem noTriple_remDash (l : List Char) : ∀ n : Nat, noTriple (remDash l n) := by
  induction l with
  | nil =>
    intro n
    rw [remDash]
    by_cases h3 : 3 ≤ n
    · simp only [h3, if_true]
      rfl
    · simp only [h3, if_false]
      interval_cases n <;> rfl
  | cons c rest ih =>
    intro n
    rw [remDash]
    by_cases hc : c = '-'
    · simp only [hc, if_pos rfl]
      exact ih (n + 1)
    · simp only [hc, if_false]
      have hcr : noTriple (c :: remDash rest 0) :=
        noTriple_cons c _ (Or.inl hc) (ih 0)
      by_cases h3 : 3 ≤ n
      · simp only [h3, if_true, List.nil_append]
        exact hcr
      · simp only [h3, if_false]
        have hn : n = 0 ∨ n = 1 ∨ n = 2 := by omega
        rcases hn with hn | hn | hn <;> subst hn
        · simpa using hcr
        · simp only [List.replicate_succ, List.replicate_zero, List.cons_append,
            List.nil_append]
          refine noTriple_cons '-' _ (Or.inr ?_) hcr
          exact twoDash_cons_of_ne c _ (by simpa using hc)
        · simp only [List.replicate_succ, List.replicate_zero, List.cons_append,
            List.nil_append]
          have h1 : noTriple ('-' :: c :: remDash rest 0) := by
            refine noTriple_cons '-' _ (Or.inr ?_) hcr
            exact twoDash_cons_of_ne c _ (by simpa using hc)
          refine noTriple_cons '-' _ (Or.inr ?_) h1
          exact twoDash_cons_cons_of_ne '-' c _ (by simpa using hc)

theorem noTriple_three (l : List Char) : noTriple ('-' :: '-' :: '-' :: l) = false := by
  rw [noTriple]
  simp

theorem remDash_fixed (l : List Char) :
    ∀ n : Nat, noTriple (List.replicate n '-' ++ l) → remDash l n = List.replicate n '-' ++ l := by
  induction l with
  | nil =>
    intro n h
    have h3 : ¬ 3 ≤ n := by
      intro h3
      obtain ⟨k, hk⟩ : ∃ k, n = k + 3 := ⟨n - 3, by omega⟩
      subst hk
      rw [show k + 3 = (k + 2) + 1 by rfl, List.replicate_succ,
        show k + 2 = (k + 1) + 1 by rfl, List.replicate_succ,
        List.replicate_succ] at h
      simp only [List.cons_append] at h
      rw [noTriple_three] at h
      exact Bool.false_ne_true h
    rw [remDash, if_neg h3, List.append_nil]
  | cons c rest ih =>
    intro n h
    rw [remDash]
    by_cases hc : c = '-'
    · subst hc
      have heq : List.replicate n '-' ++ '-' :: rest = List.replicate (n + 1) '-' ++ rest := by
        rw [List.replicate_succ' (n := n), List.append_assoc]
        rfl
      rw [if_pos rfl, ih (n + 1) (by rw [← heq]; exact h), heq]
    · have h3 : ¬ 3 ≤ n := by
        intro h3
        obtain ⟨k, hk⟩ : ∃ k, n = k + 3 := ⟨n - 3, by omega⟩
        subst hk
        rw [show k + 3 = (k + 2) + 1 by rfl, List.replicate_succ,
          show k + 2 = (k + 1) + 1 by rfl, List.replicate_succ,
          List.replicate_succ] at h
        simp only [List.cons_append] at h
        rw [noTriple_three] at h
        exact Bool.false_ne_true h
      rw [if_neg hc, if_neg h3]
      congr 1
      congr 1
      refine ih 0 ?_
      simp only [List.replicate_zero, List.nil_append]
      have h2 : noTriple (c :: rest) := noTriple_append_right (List.replicate n '-') _ h
      exact noTriple_tail c rest h2

theorem collWS_true_head (l : List Char) : ∃ t, collWS l true = ' ' :: t := by
  induction l with
  | nil => exact ⟨[], rfl⟩
  | cons c rest ih =>
    rw [collWS]
    by_cases hc : isWS c = true
    · simp only [hc, if_true]
      exact ih
    · simp only [hc, if_false]
      exact ⟨c :: collWS rest false, rfl⟩

theorem twoDash_collWS (l : List Char) (h : twoDash l = false) :
    twoDash (collWS l false) = false := by
  cases l with
  | nil => rfl
  | cons d r2 =>
    by_cases hd : isWS d = true
    · rw [show collWS (d :: r2) false = collWS r2 true from by rw [collWS, if_pos hd]]
      obtain ⟨t, ht⟩ := collWS_true_head r2
      rw [ht]
      exact twoDash_cons_of_ne ' ' t (by decide)
    · rw [show collWS (d :: r2) false = d :: collWS r2 false from by
        rw [collWS, if_neg hd]
        rfl]
      by_cases hdd : d = '-'
      · subst hdd
        cases r2 with
        | nil => rfl
        | cons e r3 =>
          have he : (e == '-') = false := by
            rw [twoDash] at h
            simpa using h
          by_cases hew : isWS e = true
          · rw [show collWS (e :: r3) false = collWS r3 true from by rw [collWS, if_pos hew]]
            obtain ⟨t, ht⟩ := collWS_true_head r3
            rw [ht]
            exact twoDash_cons_cons_of_ne '-' ' ' t (by decide)
          · rw [show collWS (e :: r3) false = e :: collWS r3 false from by
                rw [collWS, if_neg hew]
                rfl]
            exact twoDash_cons_cons_of_ne '-' e _ he
      · exact twoDash_cons_of_ne d _ (by simpa using hdd)

theorem noTriple_collWS (l : List Char) : ∀ p : Bool, noTriple l → noTriple (collWS l p) := by
  induction l with
  | nil =>
    intro p _
    cases p <;> rfl
  | cons c rest ih =>
    intro p h
    by_cases hc : isWS c = true
    · rw [show collWS (c :: rest) p = collWS rest true from by rw [collWS, if_pos hc]]
      exact ih true (noTriple_tail c rest h)
    · rw [show collWS (c :: rest) p
          = (if p then [' '] else []) ++ (c :: collWS rest false) from by
        rw [collWS, if_neg hc]]
      have hcc : noTriple (c :: collWS rest false) := by
        by_cases hcd : c = '-'
        · subst hcd
          have h2 : twoDash rest = false := by
            cases rest with
            | nil => rfl
            | cons b r =>
              cases r with
              | nil => rfl
              | cons c2 r2 =>
                rw [twoDash]
                by_cases hb : (b == '-') = true
                · rw [noTriple] at h
                  have hb2 : b = '-' := by simpa using hb
                  subst hb2
                  by_cases hc2 : (c2 == '-') = true
                  · have hc3 : c2 = '-' := by simpa using hc2
                    subst hc3
                    simp at h
                  · simp only [hc2, Bool.and_false]
                · simp only [hb, Bool.false_and]
          have h3 := twoDash_collWS rest h2
          exact noTriple_cons '-' _ (Or.inr h3) (ih false (noTriple_tail _ _ h))
        · exact noTriple_cons c _ (Or.inl hcd) (ih false (noTriple_tail _ _ h))
      cases p
      · simpa using hcc
      · simp only [if_true]
        refine noTriple_cons ' ' _ (Or.inl (by decide)) hcc

theorem noDbl_cons_nonws (a : Char) (l : List Char) (ha : isWS a = false)
    (h : noDblWS l) : noDblWS (a :: l) := by
  cases l with
  | nil => rfl
  | cons b r =>
    rw [noDblWS, Bool.and_eq_true]
    exact ⟨by simp [ha], h⟩

theorem collWS_out (l : List Char) : ∀ p : Bool,
    allSp (collWS l p) ∧ noDblWS (collWS l p) := by
  induction l with
  | nil =>
    intro p
    cases p
    · exact ⟨rfl, rfl⟩
    · exact ⟨rfl, rfl⟩
  | cons c rest ih =>
    intro p
    by_cases hc : isWS c = true
    · rw [show collWS (c :: rest) p = collWS rest true from by rw [collWS, if_pos hc]]
      exact ih true
    · rw [show collWS (c :: rest) p
          = (if p then [' '] else []) ++ (c :: collWS rest false) from by
        rw [collWS, if_neg hc]]
      obtain ⟨ha, hd⟩ := ih false
      have hcc : allSp (c :: collWS rest false) ∧ noDblWS (c :: collWS rest false) := by
        constructor
        · refine allSp_of_mem _ (fun x hx => ?_)
          rcases List.mem_cons.mp hx with hx | hx
          · subst hx
            simp [hc]
          · exact allSp_mem _ ha x hx
        · exact noDbl_cons_nonws c _ (by simpa using hc) hd
      cases p
      · simpa using hcc
      · simp only [if_true, List.singleton_append]
        constructor
        · refine allSp_of_mem _ (fun x hx => ?_)
          rcases List.mem_cons.mp hx with hx | hx
          · subst hx
            decide
          · exact allSp_mem _ hcc.1 x hx
        · refine noDbl_cons ' ' _ (Or.inr ?_) hcc.2
          simp only []
          simpa using hc

theorem collWS_fixed (l : List Char) :
    (allSp l → noDblWS l → collWS l false = l)
    ∧ (allSp l → noDblWS l → headNonWS l → collWS l true = ' ' :: l) := by
  induction l with
  | nil => exact ⟨fun _ _ => rfl, fun _ _ _ => rfl⟩
  | cons c rest ih =>
    constructor
    · intro ha hd
      by_cases hc : isWS c = true
      · have hsp : c = ' ' := by
          have := allSp_mem _ ha c (List.mem_cons_self c rest)
          rcases Bool.or_eq_true _ _ |>.mp this with h1 | h1
          · rw [hc] at h1
            simp at h1
          · simpa using h1
        have hhead : headNonWS rest := by
          cases rest with
          | nil => trivial
          | cons b r =>
            rw [noDblWS, Bool.and_eq_true] at hd
            have h1 := hd.1
            rw [hc] at h1
            rw [headNonWS]
            simpa using h1
        rw [show collWS (c :: rest) false = collWS rest true from by rw [collWS, if_pos hc]]
        rw [ih.2 (allSp_sub _ _ ha (fun x hx => List.mem_cons_of_mem c hx))
          (noDbl_tail c rest hd) hhead, hsp]
      · rw [show collWS (c :: rest) false = c :: collWS rest false from by
          rw [collWS, if_neg hc]
          rfl]
        rw [ih.1 (allSp_sub _ _ ha (fun x hx => List.mem_cons_of_mem c hx))
          (noDbl_tail c rest hd)]
    · intro ha hd hh
      rw [headNonWS] at hh
      rw [show collWS (c :: rest) true = [' '] ++ (c :: collWS rest false) from by
        rw [collWS, if_neg (by simp [hh])]
        rfl]
      rw [ih.1 (allSp_sub _ _ ha (fun x hx => List.mem_cons_of_mem c hx))
        (noDbl_tail c rest hd)]
      rfl

theorem dropWhile_head_false (p : Char → Bool) (l : List Char) (c : Char) (t : List Char)
    (h : l.dropWhile p = c :: t) : p c = false := by
  induction l with
  | nil => simp at h
  | cons a r ih =>
    rw [List.dropWhile_cons] at h
    by_cases hp : p a = true
    · rw [if_pos hp] at h
      exact ih h
    · rw [if_neg hp] at h
      injection h with h1 h2
      subst h1
      simpa using hp

theorem dropWhile_idem (p : Char → Bool) (l : List Char) :
    (l.dropWhile p).dropWhile p = l.dropWhile p := by
  cases hl : l.dropWhile p with
  | nil => rfl
  | cons c t =>
    rw [List.dropWhile_cons, if_neg (by simp [dropWhile_head_false p l c t hl])]

theorem pyStrip_prefix_decomp (p : Char → Bool) (m : List Char) :
    m = (m.reverse.dropWhile p).reverse ++ (m.reverse.takeWhile p).reverse := by
  rw [← List.reverse_append, List.takeWhile_append_dropWhile, List.reverse_reverse]

theorem pyStrip_idem (p : Char → Bool) (l : List Char) :
    pyStrip p (pyStrip p l) = pyStrip p l := by
  set m := l.dropWhile p with hm
  set s := (m.reverse.dropWhile p).reverse with hs
  have hsps : pyStrip p l = s := rfl
  rw [hsps]
  have hds : s.dropWhile p = s := by
    cases hcase : s with
    | nil => rfl
    | cons c t =>
      have hhead : m.dropWhile p = m := by
        rw [hm, dropWhile_idem]
      have hmc : ∃ u, m = c :: u := by
        have := pyStrip_prefix_decomp p m
        rw [← hs, hcase] at this
        rw [List.cons_append] at this
        exact ⟨t ++ (m.reverse.takeWhile p).reverse, this⟩
      obtain ⟨u, hu⟩ := hmc
      have hpc : p c = false := by
        have : m.dropWhile p = c :: u := by rw [hhead, hu]
        exact dropWhile_head_false p m c u this
      rw [hcase] at *
      rw [List.dropWhile_cons, if_neg (by simp [hpc])]
  have hrs : s.reverse.dropWhile p = s.reverse := by
    rw [hs, List.reverse_reverse, dropWhile_idem]
  rw [pyStrip, hds, hrs, hs, List.reverse_reverse]

theorem cleanChars_props (l : List Char) :
    noTriple (cleanChars l) ∧ allSp (cleanChars l) ∧ noDblWS (cleanChars l) := by
  rw [cleanChars]
  exact ⟨noTriple_pyStrip _ _ (noTriple_collWS _ false (noTriple_remDash l 0)),
    allSp_pyStrip _ _ (collWS_out (remDash l 0) false).1,
    noDbl_pyStrip _ _ (collWS_out (remDash l 0) false).2⟩

theorem cleanChars_idem (l : List Char) : cleanChars (cleanChars l) = cleanChars l := by
  obtain ⟨h1, h2, h3⟩ := cleanChars_props l
  have hr : remDash (cleanChars l) 0 = cleanChars l := by
    have := remDash_fixed (cleanChars l) 0 (by simpa using h1)
    simpa using this
  have hc : collWS (cleanChars l) false = cleanChars l := (collWS_fixed _).1 h2 h3
  have hp : pyStrip stripSet (cleanChars l) = cleanChars l := pyStrip_idem stripSet _
  calc cleanChars (cleanChars l)
      = pyStrip stripSet (collWS (remDash (cleanChars l) 0) false) := rfl
    _ = pyStrip stripSet (collWS (cleanChars l) false) := by rw [hr]
    _ = pyStrip stripSet (cleanChars l) := by rw [hc]
    _ = cleanChars l := hp

theorem cleanStr_idem (s : String) : cleanStr (cleanStr s) = cleanStr s :=
  congrArg String.mk (cleanChars_idem s.data)

theorem pyStripWS_idem (s : String) : pyStripWS (pyStripWS s) = pyStripWS s :=
  congrArg String.mk (pyStrip_idem isWS s.data)

theorem cleanList_append (a b : List Json) :
    cleanList (a ++ b) = cleanList a ++ cleanList b := by
  induction a with
  | nil => rfl
  | cons i rest ih =>
    rw [List.cons_append, cleanList, cleanList, ih, List.append_assoc]

theorem cleanList_idem_of (xs : List Json)
    (ih : ∀ i ∈ xs, clean_json (clean_json i) = clean_json i) :
    cleanList (cleanList xs) = cleanList xs := by
  induction xs with
  | nil => rfl
  | cons i rest ihr =>
    have ihi := ih i (List.mem_cons_self i rest)
    have ihrest := ihr (fun j hj => ih j (List.mem_cons_of_mem i hj))
    rw [cleanList, cleanList_append]
    by_cases ht : (truthy i && truthy (clean_json i)) = true
    · rw [if_pos ht]
      have htci : truthy (clean_json i) = true := (Bool.and_eq_true _ _ |>.mp ht).2
      rw [show cleanList [clean_json i]
          = (if truthy (clean_json i) && truthy (clean_json (clean_json i))
              then [clean_json (clean_json i)] else []) ++ cleanList [] from rfl]
      rw [ihi, htci, cleanList, ihrest]
      rfl
    · rw [if_neg ht, cleanList, ihrest]

theorem mem_cleanEntries (l : List (String × Json)) (p : String × Json)
    (h : p ∈ cleanEntries l) : ∃ q ∈ l, p = (pyStripWS q.1, clean_json q.2) := by
  induction l with
  | nil => simp [cleanEntries] at h
  | cons q rest ih =>
    obtain ⟨k, v⟩ := q
    rw [cleanEntries] at h
    rcases List.mem_cons.mp h with h | h
    · exact ⟨(k, v), List.mem_cons_self _ _, h⟩
    · obtain ⟨q2, hq2, he⟩ := ih h
      exact ⟨q2, List.mem_cons_of_mem _ hq2, he⟩

theorem cleanEntries_fixed (l : List (String × Json))
    (h : ∀ p ∈ l, pyStripWS p.1 = p.1 ∧ clean_json p.2 = p.2) : cleanEntries l = l := by
  induction l with
  | nil => rfl
  | cons q rest ih =>
    obtain ⟨k, v⟩ := q
    have hq := h (k, v) (List.mem_cons_self _ _)
    rw [cleanEntries, hq.1, hq.2, ih (fun p hp => h p (List.mem_cons_of_mem _ hp))]

theorem keysOf_upsert (acc : List (String × Json)) (k : String) (v : Json) :
    keysOf (upsert acc k v) = if acc.any (fun p => p.1 == k) then keysOf acc
      else keysOf acc ++ [k] := by
  rw [upsert]
  by_cases h : acc.any (fun p => p.1 == k) = true
  · rw [if_pos h, if_pos h, keysOf, keysOf, List.map_map]
    refine List.map_congr_left (fun p _ => ?_)
    by_cases hp : (p.1 == k) = true
    · simp only [Function.comp_apply, hp, if_pos]
      exact (beq_iff_eq.mp hp).symm
    · simp only [Function.comp_apply, hp]
      rw [if_neg (by simp [hp])]
  · rw [if_neg h, if_neg h, keysOf, keysOf, List.map_append]
    rfl

theorem mem_upsert (acc : List (String × Json)) (k : String) (v : Json) (p : String × Json)
    (h : p ∈ upsert acc k v) : p ∈ acc ∨ p = (k, v) := by
  rw [upsert] at h
  by_cases hc : acc.any (fun q => q.1 == k) = true
  · rw [if_pos hc] at h
    obtain ⟨q, hq, he⟩ := List.mem_map.mp h
    by_cases hqk : (q.1 == k) = true
    · rw [if_pos hqk] at he
      exact Or.inr he.symm
    · rw [if_neg hqk] at he
      exact Or.inl (he ▸ hq)
  · rw [if_neg hc] at h
    rcases List.mem_append.mp h with h | h
    · exact Or.inl h
    · exact Or.inr (List.mem_singleton.mp h)

theorem key_mem_upsert (acc : List (String × Json)) (k : String) (v : Json) :
    k ∈ keysOf (upsert acc k v) := by
  rw [keysOf_upsert]
  by_cases h : acc.any (fun p => p.1 == k) = true
  · rw [if_pos h]
    rw [List.any_eq_true] at h
    obtain ⟨q, hq, he⟩ := h
    rw [keysOf]
    exact List.mem_map.mpr ⟨q, hq, beq_iff_eq.mp he⟩
  · rw [if_neg h]
    exact List.mem_append.mpr (Or.inr (List.mem_singleton.mpr rfl))

theorem key_mem_upsert_of_mem (acc : List (String × Json)) (k x : String) (v : Json)
    (h : x ∈ keysOf acc) : x ∈ keysOf (upsert acc k v) := by
  rw [keysOf_upsert]
  by_cases hc : acc.any (fun p => p.1 == k) = true
  · rw [if_pos hc]
    exact h
  · rw [if_neg hc]
    exact List.mem_append.mpr (Or.inl h)

theorem nodup_keys_upsert (acc : List (String × Json)) (k : String) (v : Json)
    (h : (keysOf acc).Nodup) : (keysOf (upsert acc k v)).Nodup := by
  rw [keysOf_upsert]
  by_cases hc : acc.any (fun p => p.1 == k) = true
  · rw [if_pos hc]
    exact h
  · rw [if_neg hc]
    rw [List.nodup_append]
    refine ⟨h, List.nodup_singleton k, ?_⟩
    intro x hx hk
    rw [List.mem_singleton] at hk
    subst hk
    rw [List.any_eq_true] at hc
    rw [keysOf] at hx
    obtain ⟨q, hq, he⟩ := List.mem_map.mp hx
    exact hc ⟨q, hq, beq_iff_eq.mpr he⟩

theorem nodup_keys_foldl (l : List (String × Json)) :
    ∀ acc, (keysOf acc).Nodup →
      (keysOf (l.foldl (fun acc p => upsert acc p.1 p.2) acc)).Nodup := by
  induction l with
  | nil => exact fun acc h => h
  | cons q rest ih =>
    intro acc h
    rw [List.foldl_cons]
    exact ih _ (nodup_keys_upsert acc q.1 q.2 h)

theorem nodup_keys_buildDict (l : List (String × Json)) : (keysOf (buildDict l)).Nodup :=
  nodup_keys_foldl l [] (List.nodup_nil)

theorem mem_foldl_upsert (l : List (String × Json)) :
    ∀ acc p, p ∈ l.foldl (fun acc q => upsert acc q.1 q.2) acc → p ∈ acc ∨ p ∈ l := by
  induction l with
  | nil => exact fun acc p h => Or.inl h
  | cons q rest ih =>
    intro acc p h
    rw [List.foldl_cons] at h
    rcases ih _ p h with h2 | h2
    · rcases mem_upsert acc q.1 q.2 p h2 with h3 | h3
      · exact Or.inl h3
      · exact Or.inr (by rw [h3]; exact List.mem_cons_self _ _)
    · exact Or.inr (List.mem_cons_of_mem _ h2)

theorem mem_buildDict (l : List (String × Json)) (p : String × Json)
    (h : p ∈ buildDict l) : p ∈ l := by
  rcases mem_foldl_upsert l [] p h with h2 | h2
  · exact absurd h2 (List.not_mem_nil p)
  · exact h2

theorem upsert_of_not_mem (acc : List (String × Json)) (k : String) (v : Json)
    (h : ¬ k ∈ keysOf acc) : upsert acc k v = acc ++ [(k, v)] := by
  rw [upsert, if_neg ?_]
  rw [List.any_eq_true]
  rintro ⟨q, hq, he⟩
  exact h (List.mem_map.mpr ⟨q, hq, beq_iff_eq.mp he⟩)

theorem foldl_upsert_nodup (l : List (String × Json)) :
    ∀ acc, (keysOf (acc ++ l)).Nodup →
      l.foldl (fun acc q => upsert acc q.1 q.2) acc = acc ++ l := by
  induction l with
  | nil => exact fun acc _ => (List.append_nil acc).symm
  | cons q rest ih =>
    intro acc h
    rw [List.foldl_cons]
    have hkey : ¬ q.1 ∈ keysOf acc := by
      intro hk
      rw [keysOf, List.map_append] at h
      have h2 := List.disjoint_of_nodup_append h
      exact h2 hk (by rw [List.map_cons]; exact List.mem_cons_self _ _)
    rw [upsert_of_not_mem acc q.1 q.2 hkey]
    have hq : q = (q.1, q.2) := rfl
    rw [← hq]
    rw [ih (acc ++ [q]) (by rw [List.append_assoc]; simpa using h), List.append_assoc]
    rfl

theorem buildDict_nodup (l : List (String × Json)) (h : (keysOf l).Nodup) :
    buildDict l = l := by
  rw [buildDict, foldl_upsert_nodup l [] (by simpa using h)]
  rfl

theorem cleanDict_idem_of (kvs : List (String × Json))
    (ih : ∀ p ∈ kvs, clean_json (clean_json p.2) = clean_json p.2) :
    buildDict (cleanEntries (buildDict (cleanEntries kvs))) = buildDict (cleanEntries kvs) := by
  have h1 : ∀ p ∈ buildDict (cleanEntries kvs), pyStripWS p.1 = p.1 ∧ clean_json p.2 = p.2 := by
    intro p hp
    obtain ⟨q, hq, he⟩ := mem_cleanEntries _ p (mem_buildDict _ p hp)
    subst he
    exact ⟨pyStripWS_idem q.1, ih q hq⟩
  rw [cleanEntries_fixed _ h1,
    buildDict_nodup _ (nodup_keys_buildDict (cleanEntries kvs))]

theorem clean_json_idem_bounded : ∀ n : Nat, ∀ j : Json, sizeOf j ≤ n →
    clean_json (clean_json j) = clean_json j := by
  intro n
  induction n with
  | zero =>
    intro j h
    exfalso
    cases j <;> simp at h
  | succ n ih =>
    intro j _h
    cases j with
    | str s =>
      simp only [clean_json]
      rw [cleanStr_idem]
    | num m => rfl
    | bool b => rfl
    | null => rfl
    | list xs =>
      have hm : ∀ i ∈ xs, clean_json (clean_json i) = clean_json i := by
        intro i hi
        refine ih i ?_
        have h1 := List.sizeOf_lt_of_mem hi
        have h2 : sizeOf (Json.list xs) = 1 + sizeOf xs := by simp
        omega
      simp only [clean_json]
      rw [cleanList_idem_of xs hm]
    | dict kvs =>
      have hm : ∀ p ∈ kvs, clean_json (clean_json p.2) = clean_json p.2 := by
        intro p hp
        refine ih p.2 ?_
        have h1 := List.sizeOf_lt_of_mem hp
        have h2 : sizeOf p.2 < sizeOf p := by
          obtain ⟨a, b⟩ := p
          simp
        have h3 : sizeOf (Json.dict kvs) = 1 + sizeOf kvs := by simp
        omega
      simp only [clean_json]
      rw [cleanDict_idem_of kvs hm]

theorem clean_json_idem (j : Json) : clean_json (clean_json j) = clean_json j :=
  clean_json_idem_bounded (sizeOf j) j (Nat.le_refl _)

theorem mem_valStringsL (xs : List Json) (s : String) (h : s ∈ valStringsL xs) :
    ∃ i ∈ xs, s ∈ valStrings i := by
  induction xs with
  | nil => simp [valStringsL] at h
  | cons i rest ih =>
    rw [valStringsL] at h
    rcases List.mem_append.mp h with h | h
    · exact ⟨i, List.mem_cons_self _ _, h⟩
    · obtain ⟨j, hj, hs⟩ := ih h
      exact ⟨j, List.mem_cons_of_mem _ hj, hs⟩

theorem mem_valStringsE (l : List (String × Json)) (s : String) (h : s ∈ valStringsE l) :
    ∃ p ∈ l, s ∈ valStrings p.2 := by
  induction l with
  | nil => simp [valStringsE] at h
  | cons q rest ih =>
    obtain ⟨k, v⟩ := q
    rw [valStringsE] at h
    rcases List.mem_append.mp h with h | h
    · exact ⟨(k, v), List.mem_cons_self _ _, h⟩
    · obtain ⟨p, hp, hs⟩ := ih h
      exact ⟨p, List.mem_cons_of_mem _ hp, hs⟩

theorem mem_cleanList (xs : List Json) (i : Json) (h : i ∈ cleanList xs) :
    ∃ j ∈ xs, i = clean_json j := by
  induction xs with
  | nil => simp [cleanList] at h
  | cons j rest ih =>
    rw [cleanList] at h
    rcases List.mem_append.mp h with h | h
    · by_cases ht : (truthy j && truthy (clean_json j)) = true
      · rw [if_pos ht] at h
        rw [List.mem_singleton] at h
        exact ⟨j, List.mem_cons_self _ _, h⟩
      · rw [if_neg ht] at h
        exact absurd h (List.not_mem_nil i)
    · obtain ⟨j2, hj2, he⟩ := ih h
      exact ⟨j2, List.mem_cons_of_mem _ hj2, he⟩

theorem valStrings_clean_bounded : ∀ n : Nat, ∀ j : Json, sizeOf j ≤ n →
    ∀ s ∈ valStrings (clean_json j), noTriple s.data ∧ noDblWS s.data := by
  intro n
  induction n with
  | zero =>
    intro j h
    exfalso
    cases j <;> simp at h
  | succ n ih =>
    intro j _h s hs
    cases j with
    | str t =>
      simp only [clean_json, valStrings] at hs
      rw [List.mem_singleton] at hs
      subst hs
      have h1 := cleanChars_props t.data
      exact ⟨h1.1, h1.2.2⟩
    | num m => simp [clean_json, valStrings] at hs
    | bool b => simp [clean_json, valStrings] at hs
    | null => simp [clean_json, valStrings] at hs
    | list xs =>
      simp only [clean_json, valStrings] at hs
      obtain ⟨i, hi, hsi⟩ := mem_valStringsL _ s hs
      obtain ⟨j0, hj0, he⟩ := mem_cleanList xs i hi
      subst he
      refine ih j0 ?_ s hsi
      have h1 := List.sizeOf_lt_of_mem hj0
      have h2 : sizeOf (Json.list xs) = 1 + sizeOf xs := by simp
      omega
    | dict kvs =>
      simp only [clean_json, valStrings] at hs
      obtain ⟨p, hp, hsp⟩ := mem_valStringsE _ s hs
      obtain ⟨q, hq, he⟩ := mem_cleanEntries _ p (mem_buildDict _ p hp)
      subst he
      refine ih q.2 ?_ s hsp
      have h1 := List.sizeOf_lt_of_mem hq
      have h2 : sizeOf q.2 < sizeOf q := by
        obtain ⟨a, b⟩ := q
        simp
      have h3 : sizeOf (Json.dict kvs) = 1 + sizeOf kvs := by simp
      omega

theorem valStrings_clean (j : Json) :
    ∀ s ∈ valStrings (clean_json j), noTriple s.data ∧ noDblWS s.data :=
  valStrings_clean_bounded (sizeOf j) j (Nat.le_refl _)

theorem lastVal_cleanEntries (l : List (String × Json)) (k : String) :
    lastVal (cleanEntries l) k = lastStripVal l k := by
  induction l with
  | nil => rfl
  | cons q r ih =>
    obtain ⟨k2, v2⟩ := q
    rw [cleanEntries, lastVal, lastStripVal, ih]

theorem find_map_upd (acc : List (String × Json)) (k : String) (v : Json) :
    (acc.map (fun p => if p.1 == k then (k, v) else p)).find? (fun p => p.1 == k)
      = if acc.any (fun p => p.1 == k) then some (k, v) else none := by
  induction acc with
  | nil => rfl
  | cons q r ih =>
    rw [List.map_cons, List.any_cons]
    by_cases hq : (q.1 == k) = true
    · rw [if_pos hq, List.find?_cons]
      simp [hq]
    · have hqf : (q.1 == k) = false := by simpa using hq
      rw [if_neg hq, List.find?_cons]
      simp only [hqf]
      rw [ih]
      simp only [Bool.false_or]

theorem findVal_upsert_self (acc : List (String × Json)) (k : String) (v : Json) :
    findVal (upsert acc k v) k = some v := by
  rw [findVal, upsert]
  by_cases hc : acc.any (fun p => p.1 == k) = true
  · rw [if_pos hc, find_map_upd, if_pos hc]
    rfl
  · rw [if_neg hc, List.find?_append]
    have hnone : acc.find? (fun p => p.1 == k) = none := by
      rw [List.find?_eq_none]
      intro p hp hpk
      exact hc (List.any_eq_true.mpr ⟨p, hp, hpk⟩)
    rw [hnone]
    simp [List.find?]

theorem find_map_upd_other (acc : List (String × Json)) (k k2 : String) (v : Json)
    (h : k ≠ k2) :
    (acc.map (fun p => if p.1 == k2 then (k2, v) else p)).find? (fun p => p.1 == k)
      = acc.find? (fun p => p.1 == k) := by
  induction acc with
  | nil => rfl
  | cons q r ih =>
    rw [List.map_cons]
    by_cases hq : (q.1 == k2) = true
    · rw [if_pos hq]
      have hk2k : ((k2 : String) == k) = false := by
        simp only [beq_eq_false_iff_ne, ne_eq]
        exact fun he => h he.symm
      have hqe : q.1 = k2 := beq_iff_eq.mp hq
      have hqk : (q.1 == k) = false := by rw [hqe]; exact hk2k
      rw [List.find?_cons, List.find?_cons]
      simp only [hqk, hk2k]
      exact ih
    · rw [if_neg hq, List.find?_cons, List.find?_cons]
      by_cases hqk : (q.1 == k) = true
      · simp only [hqk]
      · have hqf : (q.1 == k) = false := by simpa using hqk
        simp only [hqf]
        exact ih

theorem findVal_upsert_other (acc : List (String × Json)) (k k2 : String) (v : Json)
    (h : k ≠ k2) : findVal (upsert acc k2 v) k = findVal acc k := by
  rw [findVal, findVal, upsert]
  by_cases hc : acc.any (fun p => p.1 == k2) = true
  · rw [if_pos hc, find_map_upd_other acc k k2 v h]
  · rw [if_neg hc, List.find?_append]
    have h1 : List.find? (fun p => p.1 == k) [(k2, v)] = none := by
      rw [List.find?_eq_none]
      intro p hp hpk
      rw [List.mem_singleton] at hp
      subst hp
      exact h (beq_iff_eq.mp hpk).symm
    rw [h1]
    cases acc.find? (fun p => p.1 == k) <;> rfl

theorem findVal_foldl (l : List (String × Json)) (k : String) :
    ∀ acc, findVal (l.foldl (fun acc q => upsert acc q.1 q.2) acc) k
      = match lastVal l k with
        | some v => some v
        | none => findVal acc k := by
  induction l with
  | nil => intro acc; rfl
  | cons q r ih =>
    intro acc
    obtain ⟨k2, v2⟩ := q
    rw [List.foldl_cons, ih, lastVal]
    cases hlv : lastVal r k with
    | some v => rfl
    | none =>
      simp only []
      by_cases hk : (k2 == k) = true
      · rw [if_pos hk]
        have he : k2 = k := beq_iff_eq.mp hk
        subst he
        exact findVal_upsert_self acc k2 v2
      · rw [if_neg hk]
        exact findVal_upsert_other acc k k2 v2 (fun he => hk (beq_iff_eq.mpr he.symm))

theorem lastStripVal_append (a b : List (String × Json)) (k : String) :
    lastStripVal (a ++ b) k
      = match lastStripVal b k with
        | some v => some v
        | none => lastStripVal a k := by
  induction a with
  | nil =>
    rw [List.nil_append]
    cases hn : lastStripVal b k with
    | some v => rfl
    | none => rfl
  | cons q r ih =>
    obtain ⟨k2, v2⟩ := q
    rw [List.cons_append, lastStripVal, ih, lastStripVal]
    cases hn : lastStripVal b k with
    | some v => rfl
    | none => rfl

theorem lastStripVal_none (l : List (String × Json)) (k : String)
    (h : ∀ p ∈ l, pyStripWS p.1 ≠ k) : lastStripVal l k = none := by
  induction l with
  | nil => rfl
  | cons q r ih =>
    obtain ⟨k2, v2⟩ := q
    rw [lastStripVal, ih (fun p hp => h p (List.mem_cons_of_mem _ hp))]
    simp only []
    rw [if_neg ?_]
    intro hk
    exact h (k2, v2) (List.mem_cons_self _ _) (beq_iff_eq.mp hk)

theorem cleanEntries_append (a b : List (String × Json)) :
    cleanEntries (a ++ b) = cleanEntries a ++ cleanEntries b := by
  induction a with
  | nil => rfl
  | cons q r ih =>
    obtain ⟨k2, v2⟩ := q
    rw [List.cons_append, cleanEntries, cleanEntries, ih, List.cons_append]

theorem cleanEntries_length (l : List (String × Json)) :
    (cleanEntries l).length = l.length := by
  induction l with
  | nil => rfl
  | cons q r ih =>
    obtain ⟨k2, v2⟩ := q
    rw [cleanEntries, List.length_cons, List.length_cons, ih]

theorem upsert_length_le (acc : List (String × Json)) (k : String) (v : Json) :
    (upsert acc k v).length ≤ acc.length + 1 := by
  rw [upsert]
  by_cases hc : acc.any (fun p => p.1 == k) = true
  · rw [if_pos hc, List.length_map]
    omega
  · rw [if_neg hc, List.length_append]
    simp

theorem upsert_length_of_mem (acc : List (String × Json)) (k : String) (v : Json)
    (h : k ∈ keysOf acc) : (upsert acc k v).length = acc.length := by
  rw [upsert, if_pos ?_, List.length_map]
  rw [List.any_eq_true]
  rw [keysOf] at h
  obtain ⟨q, hq, he⟩ := List.mem_map.mp h
  exact ⟨q, hq, beq_iff_eq.mpr he⟩

theorem foldl_upsert_length_le (l : List (String × Json)) :
    ∀ acc, (l.foldl (fun acc q => upsert acc q.1 q.2) acc).length ≤ acc.length + l.length := by
  induction l with
  | nil => intro acc; simp
  | cons q r ih =>
    intro acc
    rw [List.foldl_cons]
    have h1 := ih (upsert acc q.1 q.2)
    have h2 := upsert_length_le acc q.1 q.2
    rw [List.length_cons]
    omega

theorem keys_foldl_upsert_mono (l : List (String × Json)) :
    ∀ acc x, x ∈ keysOf acc → x ∈ keysOf (l.foldl (fun acc q => upsert acc q.1 q.2) acc) := by
  induction l with
  | nil => exact fun acc x h => h
  | cons q r ih =>
    intro acc x h
    rw [List.foldl_cons]
    exact ih _ x (key_mem_upsert_of_mem acc q.1 x q.2 h)

theorem key_mem_foldl_of_pair (l : List (String × Json)) :
    ∀ (acc : List (String × Json)) (k : String) (v : Json), (k, v) ∈ l →
      k ∈ keysOf (l.foldl (fun acc q => upsert acc q.1 q.2) acc) := by
  induction l with
  | nil =>
    intro acc k v h
    exact absurd h (List.not_mem_nil _)
  | cons q r ih =>
    intro acc k v h
    rw [List.foldl_cons]
    rcases List.mem_cons.mp h with h | h
    · rw [← h]
      exact keys_foldl_upsert_mono r _ k (key_mem_upsert acc k v)
    · exact ih _ k v h

theorem clean_json_key_collision (kvs l1 l2 l3 : List (String × Json))
    (k1 k2 : String) (v1 v2 : Json)
    (hkvs : kvs = l1 ++ (k1, v1) :: (l2 ++ (k2, v2) :: l3))
    (hne : k1 ≠ k2) (hstrip : pyStripWS k1 = pyStripWS k2)
    (hlast : ∀ p ∈ l3, pyStripWS p.1 ≠ pyStripWS k2) :
    clean_json (Json.dict kvs) = Json.dict (buildDict (cleanEntries kvs))
    ∧ (keysOf (buildDict (cleanEntries kvs))).count (pyStripWS k2) = 1
    ∧ findVal (buildDict (cleanEntries kvs)) (pyStripWS k2) = some (clean_json v2)
    ∧ (buildDict (cleanEntries kvs)).length < kvs.length := by
  subst hkvs
  have h3 : lastStripVal ((k2, v2) :: l3) (pyStripWS k2) = some (clean_json v2) := by
    rw [lastStripVal, lastStripVal_none l3 _ hlast]
    simp
  have h2 : lastStripVal (l2 ++ (k2, v2) :: l3) (pyStripWS k2) = some (clean_json v2) := by
    rw [lastStripVal_append, h3]
  have h1 : lastStripVal ((k1, v1) :: (l2 ++ (k2, v2) :: l3)) (pyStripWS k2)
      = some (clean_json v2) := by
    rw [lastStripVal, h2]
  have hlsv : lastStripVal (l1 ++ (k1, v1) :: (l2 ++ (k2, v2) :: l3)) (pyStripWS k2)
      = some (clean_json v2) := by
    rw [lastStripVal_append, h1]
  have hfv : findVal (buildDict (cleanEntries (l1 ++ (k1, v1) :: (l2 ++ (k2, v2) :: l3))))
      (pyStripWS k2) = some (clean_json v2) := by
    rw [buildDict, findVal_foldl, lastVal_cleanEntries, hlsv]
  have hnd := nodup_keys_buildDict (cleanEntries (l1 ++ (k1, v1) :: (l2 ++ (k2, v2) :: l3)))
  have hmem : pyStripWS k2
      ∈ keysOf (buildDict (cleanEntries (l1 ++ (k1, v1) :: (l2 ++ (k2, v2) :: l3)))) := by
    rw [findVal] at hfv
    cases hf : List.find? (fun p => p.1 == pyStripWS k2)
        (buildDict (cleanEntries (l1 ++ (k1, v1) :: (l2 ++ (k2, v2) :: l3)))) with
    | none =>
      rw [hf] at hfv
      simp at hfv
    | some p =>
      have hp := List.mem_of_find?_eq_some hf
      have hpk := List.find?_some hf
      rw [keysOf]
      exact List.mem_map.mpr ⟨p, hp, beq_iff_eq.mp hpk⟩
  refine ⟨rfl, List.count_eq_one_of_mem hnd hmem, hfv, ?_⟩
  have hsplit : l1 ++ (k1, v1) :: (l2 ++ (k2, v2) :: l3)
      = (l1 ++ (k1, v1) :: l2) ++ ((k2, v2) :: l3) := by
    rw [List.append_assoc, List.cons_append]
  rw [buildDict, hsplit, cleanEntries_append, List.foldl_append]
  have hpair : (pyStripWS k1, clean_json v1) ∈ cleanEntries (l1 ++ (k1, v1) :: l2) := by
    rw [cleanEntries_append, cleanEntries]
    exact List.mem_append.mpr (Or.inr (List.mem_cons_self _ _))
  have hm1 : pyStripWS k2 ∈ keysOf
      ((cleanEntries (l1 ++ (k1, v1) :: l2)).foldl (fun acc q => upsert acc q.1 q.2) []) := by
    rw [← hstrip]
    exact key_mem_foldl_of_pair _ [] (pyStripWS k1) (clean_json v1) hpair
  rw [cleanEntries, List.foldl_cons]
  set acc1 := List.foldl (fun acc p => upsert acc p.1 p.2) []
    (cleanEntries (l1 ++ (k1, v1) :: l2)) with hacc1
  have hm1b : (pyStripWS k2, clean_json v2).1 ∈ keysOf acc1 := hm1
  have hlen1 : (upsert acc1 (pyStripWS k2, clean_json v2).1
      (pyStripWS k2, clean_json v2).2).length = acc1.length :=
    upsert_length_of_mem _ _ _ hm1b
  have hlen2 := foldl_upsert_length_le (cleanEntries l3)
    (upsert acc1 (pyStripWS k2, clean_json v2).1 (pyStripWS k2, clean_json v2).2)
  have hlen3 := foldl_upsert_length_le (cleanEntries (l1 ++ (k1, v1) :: l2)) []
  rw [← hacc1] at hlen3
  have hce3 := cleanEntries_length l3
  have hce12 := cleanEntries_length (l1 ++ (k1, v1) :: l2)
  rw [List.length_append, List.length_cons] at hce12
  rw [List.length_append, List.length_cons, List.length_append, List.length_cons]
  simp only [List.length_nil] at hlen3
  omega

/-- C2 counterexample: the claimed scenario result is false on the code. At the
mapping with entries ("a ", "x   --- y") and ("b", []), normalize does not drop
the entry "b": the mapping branch keeps every entry, so the output is not the
one-entry mapping claimed. -/
theorem clean_json_scenario_claim_false :
    ¬ (clean_json (Json.dict [(("a "), Json.str ("x   --- y")), (("b"), Json.list [])])
      = Json.dict [(("a"), Json.str ("x y"))]) := by
  intro h
  rw [show clean_json (Json.dict [(("a "), Json.str ("x   --- y")), (("b"), Json.list [])])
      = Json.dict [(("a"), Json.str ("x y")), (("b"), Json.list [])] from rfl] at h
  injection h with h1
  simp at h1

/-- C2 (amended): normalize applied to the mapping with entries
("a ", "x   --- y") and ("b", []) returns the mapping with entries
("a", "x y") and ("b", []): the key is whitespace-trimmed and the dash run and
extra whitespace in the string value are collapsed, but the entry "b" is
retained bound to the empty list, because the mapping branch drops no entries
(only the sequence branch drops falsy elements). -/
theorem clean_json_scenario :
    clean_json (Json.dict [(("a "), Json.str ("x   --- y")), (("b"), Json.list [])])
      = Json.dict [(("a"), Json.str ("x y")), (("b"), Json.list [])] := rfl

/-- C4: normalize (clean_json) is idempotent: for every structurally valid
input value (string, list, mapping, or scalar, nested arbitrarily),
applying it twice equals applying it once. -/
theorem clean_json_idempotent (j : Json) : clean_json (clean_json j) = clean_json j :=
  clean_json_idem j

/-- C5 counterexample: not every string reachable in the output of normalize is
free of dash runs: mapping keys are only whitespace-trimmed, so the key
"a---b" survives normalization with its three-dash run intact. -/
theorem clean_json_key_artifact :
    ¬ (∀ s ∈ allStrings (clean_json (Json.dict [(("a---b"), Json.num 1)])),
        (noTriple s.data && noDblWS s.data) = true) := by
  decide

/-- C5 (amended): every string in value position reachable in the output of
normalize (string leaves of lists and of mapping values, but not mapping keys)
contains no run of 3 or more consecutive dashes and no run of 2 or more
consecutive whitespace characters. -/
theorem clean_json_value_strings_clean (j : Json) (s : String)
    (hs : s ∈ valStrings (clean_json j)) :
    noTriple s.data ∧ noDblWS s.data :=
  valStrings_clean j s hs

/-- Witness for the amended C5 at a concrete input. -/
theorem clean_json_value_strings_clean_witness :
    (("a b") ∈ valStrings (clean_json (Json.str (" a  b ")))) ∧
    (noTriple ("a b").data ∧ noDblWS ("a b").data) :=
  ⟨by decide, clean_json_value_strings_clean (Json.str (" a  b ")) ("a b") (by decide)⟩

/-- C9: on a mapping containing two distinct keys that become equal after
whitespace-trimming (with no later entry colliding on the same trimmed key),
the normalized mapping binds that trimmed key exactly once, to the normalized
value of the entry iterated last, and the mapping shrinks: the output has
strictly fewer entries than the input. -/
theorem clean_json_collision (kvs l1 l2 l3 : List (String × Json))
    (k1 k2 : String) (v1 v2 : Json)
    (hkvs : kvs = l1 ++ (k1, v1) :: (l2 ++ (k2, v2) :: l3))
    (hne : k1 ≠ k2) (hstrip : pyStripWS k1 = pyStripWS k2)
    (hlast : ∀ p ∈ l3, pyStripWS p.1 ≠ pyStripWS k2) :
    clean_json (Json.dict kvs) = Json.dict (buildDict (cleanEntries kvs))
    ∧ (keysOf (buildDict (cleanEntries kvs))).count (pyStripWS k2) = 1
    ∧ findVal (buildDict (cleanEntries kvs)) (pyStripWS k2) = some (clean_json v2)
    ∧ (buildDict (cleanEntries kvs)).length < kvs.length :=
  clean_json_key_collision kvs l1 l2 l3 k1 k2 v1 v2 hkvs hne hstrip hlast

/-- Witness for C9 at the concrete mapping with keys "a " and "a". -/
theorem clean_json_collision_witness :
    (([(("a "), Json.num 1), (("a"), Json.num 2)] : List (String × Json))
        = [] ++ (("a "), Json.num 1) :: ([] ++ (("a"), Json.num 2) :: []))
    ∧ (("a ") : String) ≠ ("a")
    ∧ pyStripWS ("a ") = pyStripWS ("a")
    ∧ (∀ p ∈ ([] : List (String × Json)), pyStripWS p.1 ≠ pyStripWS ("a"))
    ∧ (clean_json (Json.dict [(("a "), Json.num 1), (("a"), Json.num 2)])
        = Json.dict (buildDict (cleanEntries [(("a "), Json.num 1), (("a"), Json.num 2)]))
      ∧ (keysOf (buildDict (cleanEntries [(("a "), Json.num 1), (("a"), Json.num 2)]))).count
          (pyStripWS ("a")) = 1
      ∧ findVal (buildDict (cleanEntries [(("a "), Json.num 1), (("a"), Json.num 2)]))
          (pyStripWS ("a")) = some (clean_json (Json.num 2))
      ∧ (buildDict (cleanEntries [(("a "), Json.num 1), (("a"), Json.num 2)])).length
          < ([(("a "), Json.num 1), (("a"), Json.num 2)] : List (String × Json)).length) :=
  ⟨rfl, by decide, by decide, by simp,
    clean_json_collision [(("a "), Json.num 1), (("a"), Json.num 2)] [] [] []
      ("a ") ("a") (Json.num 1) (Json.num 2) rfl (by decide) (by decide) (by simp)⟩

theorem isHash3_false_of_head (c : Char) (l : List Char) (h : c ≠ '#') :
    isHash3 (c :: l) = false := by
  match l with
  | [] => rfl
  | [b] => rfl
  | b :: d :: r =>
    rw [isHash3]
    simp [h]

theorem hashes_of_isHash3 (l : List Char) (h : isHash3 l = true) :
    ('#' :: '#' :: '#' :: []) <:+: l := by
  match l with
  | [] => simp [isHash3] at h
  | [a] => simp [isHash3] at h
  | [a, b] => simp [isHash3] at h
  | a :: b :: c :: r =>
    rw [isHash3] at h
    simp only [Bool.and_eq_true, beq_iff_eq] at h
    obtain ⟨⟨ha, hb⟩, hc⟩ := h
    subst ha; subst hb; subst hc
    exact List.IsPrefix.isInfix ⟨r, rfl⟩

theorem findSec_none_of_no_hash (hd : List Char) (l : List Char)
    (hn : ¬ (('#' :: '#' :: '#' :: []) <:+: l)) : findSec hd l = none := by
  induction l with
  | nil => rfl
  | cons c rest ih =>
    have hh : isHash3 (c :: rest) = false := by
      cases hcase : isHash3 (c :: rest)
      · rfl
      · exact absurd (hashes_of_isHash3 _ hcase) hn
    rw [findSec, hh]
    simp only [Bool.false_eq_true, if_false]
    exact ih (fun hi => hn (List.infix_cons hi))

theorem findSecG_none_of_no_hash (hd : List Char) (l : List Char)
    (hn : ¬ (('#' :: '#' :: '#' :: []) <:+: l)) : findSecG hd l = none := by
  induction l with
  | nil => rfl
  | cons c rest ih =>
    have hh : isHash3 (c :: rest) = false := by
      cases hcase : isHash3 (c :: rest)
      · rfl
      · exact absurd (hashes_of_isHash3 _ hcase) hn
    rw [findSecG, hh]
    simp only [Bool.false_eq_true, if_false]
    exact ih (fun hi => hn (List.infix_cons hi))

theorem parse_default_of_no_hashes (text : List Char)
    (hn : ¬ (('#' :: '#' :: '#' :: []) <:+: text)) :
    parse_medical_report text = defaultReport := by
  unfold parse_medical_report
  rw [findSec_none_of_no_hash hdrExec text hn, findSec_none_of_no_hash hdrSys text hn,
    findSec_none_of_no_hash hdrPlan text hn, findSecG_none_of_no_hash hdrAlerts text hn]
  rfl

theorem stripCI_self_append (pat t : List Char) : stripCI pat (pat ++ t) = some t := by
  induction pat with
  | nil => rfl
  | cons p ps ih =>
    rw [List.cons_append, stripCI]
    simp only [beq_self_eq_true, if_true]
    exact ih

theorem capUntilHash_id (l : List Char) (hh : ∀ c ∈ l, c ≠ '#')
    (hl : l.getLast? ≠ some '\n') : capUntilHash l = l := by
  induction l with
  | nil => rfl
  | cons c rest ih =>
    rw [capUntilHash,
      isHash3_false_of_head c rest (hh c (List.mem_cons_self _ _))]
    simp only [Bool.false_eq_true, if_false]
    cases rest with
    | nil =>
      have hc : ¬ (c = '\n') := by
        intro he
        subst he
        exact hl rfl
      simp only [List.isEmpty_nil, Bool.and_true, hc]
      simp [capUntilHash]
    | cons d r2 =>
      simp only [List.isEmpty_cons, Bool.and_false, Bool.false_eq_true, if_false]
      rw [ih (fun x hx => hh x (List.mem_cons_of_mem _ hx)) hl]

theorem no_infix_of_no_hash_mem (l : List Char) (h : ∀ c ∈ l, c ≠ '#') :
    ¬ (('#' :: '#' :: '#' :: []) <:+: l) := by
  intro hi
  exact h '#' (hi.subset (List.mem_cons_self _ _)) rfl

theorem numsGo_cap (m : List Char) (hm : ∀ c ∈ m, c ≠ '\n') :
    ∀ (t : List Char) (acc : List Char),
      findNumsGo (m ++ t) (NumSt.cap acc) = findNumsGo t (NumSt.cap (m.reverse ++ acc)) := by
  induction m with
  | nil => intro t acc; rfl
  | cons c rest ih =>
    intro t acc
    rw [List.cons_append, findNumsGo]
    simp only [hm c (List.mem_cons_self _ _), if_false]
    rw [ih (fun x hx => hm x (List.mem_cons_of_mem _ hx)) t (c :: acc)]
    rw [List.reverse_cons, List.append_assoc]
    rfl

theorem dashesGo_cap (m : List Char) (hm : ∀ c ∈ m, c ≠ '\n') :
    ∀ (t : List Char) (acc : List Char),
      findDashesGo (m ++ t) (DashSt.cap acc) = findDashesGo t (DashSt.cap (m.reverse ++ acc)) := by
  induction m with
  | nil => intro t acc; rfl
  | cons c rest ih =>
    intro t acc
    rw [List.cons_append, findDashesGo]
    simp only [hm c (List.mem_cons_self _ _), if_false]
    rw [ih (fun x hx => hm x (List.mem_cons_of_mem _ hx)) t (c :: acc)]
    rw [List.reverse_cons, List.append_assoc]
    rfl

theorem dashesGo_scan (m : List Char) (hm : ∀ c ∈ m, c ≠ '-') :
    ∀ t : List Char, findDashesGo (m ++ t) DashSt.scan = findDashesGo t DashSt.scan := by
  induction m with
  | nil => intro t; rfl
  | cons c rest ih =>
    intro t
    rw [List.cons_append, findDashesGo]
    simp only [hm c (List.mem_cons_self _ _), if_false]
    exact ih (fun x hx => hm x (List.mem_cons_of_mem _ hx)) t

theorem dashesGo_skipws (m : List Char) (hm : ∀ c ∈ m, c ≠ '\n') :
    findDashesGo m DashSt.skipws = [m.dropWhile isWS] := by
  induction m with
  | nil => rfl
  | cons c rest ih =>
    rw [findDashesGo, List.dropWhile_cons]
    by_cases hw : isWS c = true
    · simp only [hw, if_true]
      exact ih (fun x hx => hm x (List.mem_cons_of_mem _ hx))
    · simp only [hw, if_false]
      have := dashesGo_cap rest (fun x hx => hm x (List.mem_cons_of_mem _ hx)) [] [c]
      rw [List.append_nil] at this
      rw [this, findDashesGo, List.reverse_append]
      simp

theorem pyStrip_dropWhile (p : Char → Bool) (l : List Char) :
    pyStrip p (l.dropWhile p) = pyStrip p l := by
  rw [pyStrip, pyStrip, dropWhile_idem]

theorem clean_line_dropWhile (l : List Char) :
    clean_line (l.dropWhile isWS) = clean_line l := by
  rw [clean_line, clean_line, pyStrip_dropWhile]

theorem getLast?_ne_nl (m : List Char) (hm : ∀ c ∈ m, c ≠ '\n') :
    m.getLast? ≠ some '\n' := by
  intro h
  exact hm '\n' (List.mem_of_mem_getLast? h) rfl

theorem numsGo_cap_end (m : List Char) (hm : ∀ c ∈ m, c ≠ '\n') :
    ∀ acc : List Char, findNumsGo m (NumSt.cap acc) = [acc.reverse ++ m] := by
  induction m with
  | nil =>
    intro acc
    rw [findNumsGo, List.append_nil]
  | cons c rest ih =>
    intro acc
    rw [findNumsGo, if_neg (by simp [hm c (List.mem_cons_self _ _)])]
    rw [ih (fun x hx => hm x (List.mem_cons_of_mem _ hx)) (c :: acc)]
    simp

theorem findSec_cons_match (hd : List Char) (c : Char) (rest t : List Char)
    (h3 : isHash3 (c :: rest) = true)
    (hstrip : stripCI hd (((c :: rest).drop 3).dropWhile isWS) = some t) :
    findSec hd (c :: rest) = some (capUntilHash t) := by
  rw [findSec, h3]
  simp only [if_true]
  rw [hstrip]

theorem findSec_cons_skip (hd : List Char) (c : Char) (rest : List Char)
    (hfail : isHash3 (c :: rest) = false
      ∨ stripCI hd (((c :: rest).drop 3).dropWhile isWS) = none) :
    findSec hd (c :: rest) = findSec hd rest := by
  rw [findSec]
  rcases hfail with hfail | hfail
  · rw [hfail]
    simp
  · by_cases h3 : isHash3 (c :: rest) = true
    · rw [h3]
      simp only [if_true]
      rw [hfail]
    · simp only [Bool.not_eq_true] at h3
      rw [h3]
      simp

theorem findSecG_cons_skip (hd : List Char) (c : Char) (rest : List Char)
    (hfail : isHash3 (c :: rest) = false
      ∨ stripCI hd (((c :: rest).drop 3).dropWhile isWS) = none) :
    findSecG hd (c :: rest) = findSecG hd rest := by
  rw [findSecG]
  rcases hfail with hfail | hfail
  · rw [hfail]
    simp
  · by_cases h3 : isHash3 (c :: rest) = true
    · rw [h3]
      simp only [if_true]
      rw [hfail]
    · simp only [Bool.not_eq_true] at h3
      rw [h3]
      simp

theorem exec_dash_strength (p0 : Char) (ptail post : List Char)
    (h0 : isWS p0 = false)
    (hpre : ∀ c ∈ p0 :: ptail, c ≠ '\n' ∧ c ≠ '#' ∧ c ≠ '-' ∧ c.isDigit = false)
    (hpost : ∀ c ∈ post, c ≠ '\n' ∧ c ≠ '#') :
    parse_medical_report
        ((("### Executive Summary\n1. ").data) ++ ((p0 :: ptail) ++ ('-' :: post)))
      = { defaultReport with
          executive_summary :=
            ⟨[clean_line ((p0 :: ptail) ++ '-' :: post)], [clean_line post]⟩ } := by
  have hconc : ("### Executive Summary\n1. ").data
      = '#' :: '#' :: '#' :: ' ' :: (hdrExec ++ ("\n1. ").data) := by decide
  have hEapp : ∀ t : List Char, hdrExec ++ t = 'E' :: (("xecutive Summary").data ++ t) :=
    fun t => rfl
  have htext : ("### Executive Summary\n1. ").data ++ ((p0 :: ptail) ++ ('-' :: post))
      = '#' :: '#' :: '#' :: ' '
          :: (hdrExec ++ (("\n1. ").data ++ ((p0 :: ptail) ++ ('-' :: post)))) := by
    rw [hconc]
    simp only [List.cons_append, List.append_assoc]
  have ht0 : ("\n1. ").data ++ ((p0 :: ptail) ++ ('-' :: post))
      = '\n' :: '1' :: '.' :: ' ' :: ((p0 :: ptail) ++ ('-' :: post)) := rfl
  have hnohash : ∀ c ∈ ' ' :: (hdrExec ++ (("\n1. ").data ++ ((p0 :: ptail) ++ ('-' :: post)))),
      c ≠ '#' := by
    intro c hc
    rcases List.mem_cons.mp hc with hc | hc
    · subst hc; decide
    rcases List.mem_append.mp hc with hc | hc
    · exact (by decide : ∀ x ∈ hdrExec, x ≠ '#') c hc
    rcases List.mem_append.mp hc with hc | hc
    · exact (by decide : ∀ x ∈ ("\n1. ").data, x ≠ '#') c hc
    rcases List.mem_append.mp hc with hc | hc
    · exact (hpre c hc).2.1
    rcases List.mem_cons.mp hc with hc | hc
    · subst hc; decide
    · exact (hpost c hc).2
  have hh3 : isHash3 ('#' :: '#' :: '#' :: ' '
      :: (hdrExec ++ (("\n1. ").data ++ ((p0 :: ptail) ++ ('-' :: post))))) = true := by
    rw [isHash3]
    decide
  have hdropped : (('#' :: '#' :: '#' :: ' '
        :: (hdrExec ++ (("\n1. ").data ++ ((p0 :: ptail) ++ ('-' :: post))))).drop 3).dropWhile
          isWS
      = hdrExec ++ (("\n1. ").data ++ ((p0 :: ptail) ++ ('-' :: post))) := by
    rw [show ('#' :: '#' :: '#' :: ' '
        :: (hdrExec ++ (("\n1. ").data ++ ((p0 :: ptail) ++ ('-' :: post))))).drop 3
      = ' ' :: (hdrExec ++ (("\n1. ").data ++ ((p0 :: ptail) ++ ('-' :: post)))) from rfl]
    rw [List.dropWhile_cons, if_pos (by decide : isWS ' ' = true)]
    rw [hEapp, List.dropWhile_cons, if_neg (by decide : ¬ isWS 'E' = true), ← hEapp]
  have hcap : capUntilHash (("\n1. ").data ++ ((p0 :: ptail) ++ ('-' :: post)))
      = ("\n1. ").data ++ ((p0 :: ptail) ++ ('-' :: post)) := by
    refine capUntilHash_id _ ?_ ?_
    · intro c hc
      rcases List.mem_append.mp hc with hc | hc
      · exact (by decide : ∀ x ∈ ("\n1. ").data, x ≠ '#') c hc
      rcases List.mem_append.mp hc with hc | hc
      · exact (hpre c hc).2.1
      rcases List.mem_cons.mp hc with hc | hc
      · subst hc; decide
      · exact (hpost c hc).2
    · rw [List.getLast?_append, List.getLast?_append]
      have hne : ('-' :: post).getLast? ≠ some '\n' := by
        refine getLast?_ne_nl _ ?_
        intro c hc
        rcases List.mem_cons.mp hc with hc | hc
        · subst hc; decide
        · exact (hpost c hc).1
      have hsome : (('-' :: post).getLast?).isSome = true := by
        rw [List.getLast?_isSome]
        simp
      obtain ⟨x, hx⟩ := Option.isSome_iff_exists.mp hsome
      rw [hx]
      rw [hx] at hne
      simpa using hne
  have hskip1 : isHash3 ('#' :: '#' :: ' '
      :: (hdrExec ++ (("\n1. ").data ++ ((p0 :: ptail) ++ ('-' :: post))))) = false := by
    rw [isHash3]
    decide
  have hskip2 : isHash3 ('#' :: ' '
      :: (hdrExec ++ (("\n1. ").data ++ ((p0 :: ptail) ++ ('-' :: post))))) = false := by
    rw [hEapp, isHash3]
    decide
  have hexec : findSec hdrExec
      (("### Executive Summary\n1. ").data ++ ((p0 :: ptail) ++ ('-' :: post)))
      = some (("\n1. ").data ++ ((p0 :: ptail) ++ ('-' :: post))) := by
    rw [htext,
      findSec_cons_match hdrExec '#'
        ('#' :: '#' :: ' ' :: (hdrExec ++ (("\n1. ").data ++ ((p0 :: ptail) ++ ('-' :: post)))))
        (("\n1. ").data ++ ((p0 :: ptail) ++ ('-' :: post))) hh3
        (by rw [hdropped]; exact stripCI_self_append hdrExec _), hcap]
  have hsysstrip : ∀ hd2 : List Char, stripCI hd2
        (((('#' :: '#' :: '#' :: ' '
          :: (hdrExec ++ (("\n1. ").data ++ ((p0 :: ptail) ++ ('-' :: post))))).drop 3).dropWhile
            isWS))
      = stripCI hd2 ('E' :: (("xecutive Summary").data
          ++ (("\n1. ").data ++ ((p0 :: ptail) ++ ('-' :: post))))) := by
    intro hd2
    rw [hdropped, hEapp]
  have hrest_none : ∀ hd2 : List Char, findSec hd2
      (' ' :: (hdrExec ++ (("\n1. ").data ++ ((p0 :: ptail) ++ ('-' :: post))))) = none :=
    fun hd2 => findSec_none_of_no_hash hd2 _ (no_infix_of_no_hash_mem _ hnohash)
  have hsys : findSec hdrSys
      (("### Executive Summary\n1. ").data ++ ((p0 :: ptail) ++ ('-' :: post))) = none := by
    rw [htext, findSec_cons_skip _ _ _ (Or.inr (by
        rw [hsysstrip hdrSys, show hdrSys = 'S' :: (("ystem-Specific Analysis").data) from rfl,
          stripCI]
        simp)),
      findSec_cons_skip _ _ _ (Or.inl hskip1),
      findSec_cons_skip _ _ _ (Or.inl hskip2)]
    exact hrest_none hdrSys
  have hplan : findSec hdrPlan
      (("### Executive Summary\n1. ").data ++ ((p0 :: ptail) ++ ('-' :: post))) = none := by
    rw [htext, findSec_cons_skip _ _ _ (Or.inr (by
        rw [hsysstrip hdrPlan, show hdrPlan = 'P' :: (("ersonalized Action Plan").data) from rfl,
          stripCI]
        simp)),
      findSec_cons_skip _ _ _ (Or.inl hskip1),
      findSec_cons_skip _ _ _ (Or.inl hskip2)]
    exact hrest_none hdrPlan
  have halerts : findSecG hdrAlerts
      (("### Executive Summary\n1. ").data ++ ((p0 :: ptail) ++ ('-' :: post))) = none := by
    rw [htext, findSecG_cons_skip _ _ _ (Or.inr (by
        rw [hsysstrip hdrAlerts, show hdrAlerts = 'I' :: (("nteraction Alerts").data) from rfl,
          stripCI]
        simp)),
      findSecG_cons_skip _ _ _ (Or.inl hskip1),
      findSecG_cons_skip _ _ _ (Or.inl hskip2)]
    exact findSecG_none_of_no_hash hdrAlerts _ (no_infix_of_no_hash_mem _ hnohash)
  have hnums : findNums (("\n1. ").data ++ ((p0 :: ptail) ++ ('-' :: post)))
      = [(p0 :: ptail) ++ '-' :: post] := by
    rw [ht0]
    rw [show findNums ('\n' :: '1' :: '.' :: ' ' :: ((p0 :: ptail) ++ ('-' :: post)))
        = findNumsGo ((p0 :: ptail) ++ ('-' :: post)) NumSt.skipws from by
      rw [findNums, findNumsGo]
      rw [if_neg (by decide : ¬ ('\n').isDigit = true), findNumsGo,
        if_pos (by decide : ('1').isDigit = true), findNumsGo]
      rw [if_neg (by decide : ¬ ('.').isDigit = true), if_pos rfl, findNumsGo,
        if_pos (by decide : isWS ' ' = true)]]
    rw [List.cons_append, findNumsGo, if_neg (by simp [h0])]
    rw [numsGo_cap_end (ptail ++ '-' :: post) ?_ [p0]]
    · simp
    · intro x hx
      rcases List.mem_append.mp hx with hx | hx
      · exact (hpre x (List.mem_cons_of_mem _ hx)).1
      rcases List.mem_cons.mp hx with hx | hx
      · subst hx; decide
      · exact (hpost x hx).1
  have hdash : findDashes (("\n1. ").data ++ ((p0 :: ptail) ++ ('-' :: post)))
      = [post.dropWhile isWS] := by
    rw [ht0]
    rw [show findDashes ('\n' :: '1' :: '.' :: ' ' :: ((p0 :: ptail) ++ ('-' :: post)))
        = findDashesGo ((p0 :: ptail) ++ ('-' :: post)) DashSt.scan from by
      rw [findDashes, findDashesGo, if_neg (by decide : ¬ ('\n' = '-')), findDashesGo,
        if_neg (by decide : ¬ ('1' = '-')), findDashesGo,
        if_neg (by decide : ¬ ('.' = '-')), findDashesGo,
        if_neg (by decide : ¬ (' ' = '-'))]]
    rw [dashesGo_scan (p0 :: ptail) (fun x hx => (hpre x hx).2.2.1)]
    rw [findDashesGo, if_pos rfl]
    exact dashesGo_skipws post (fun x hx => (hpost x hx).1)
  unfold parse_medical_report
  rw [hexec, hsys, hplan, halerts]
  show (⟨⟨(findNums (("\n1. ").data ++ ((p0 :: ptail) ++ ('-' :: post)))).map clean_line,
          (findDashes (("\n1. ").data ++ ((p0 :: ptail) ++ ('-' :: post)))).map clean_line⟩,
        defaultSys, ⟨(""), (""), (""), ("")⟩, []⟩ : ParsedReport) = _
  rw [hnums, hdash, List.map_cons, List.map_nil, List.map_cons, List.map_nil,
    clean_line_dropWhile]
  rfl

/-- C6: the report parser is total and defaults field-wise: it returns a
record for every input (empty string included, where the result is the
all-defaults record, as it is whenever no "###" marker occurs); and every
field whose section or sub-pattern is absent is left at its structural
default: an absent Executive Summary, System-Specific Analysis, Personalized
Action Plan or Interaction Alerts section leaves that group at its defaults;
within a found Executive Summary span, no numbered item leaves the priorities
empty and no dash leaves the strengths empty; within a found analysis
section, an absent subsystem heading leaves that subsystem's entry empty, and
an absent Status or Explanation label leaves that string empty; an absent
bolded plan label leaves that plan field empty; no dash in the alerts span
leaves the alerts empty. -/
theorem parse_absent_defaults :
    (parse_medical_report [] = defaultReport)
    ∧ (∀ text : List Char, ¬ (('#' :: '#' :: '#' :: []) <:+: text) →
        parse_medical_report text = defaultReport)
    ∧ (∀ text : List Char, findSec hdrExec text = none →
        (parse_medical_report text).executive_summary = ⟨[], []⟩)
    ∧ (∀ text block : List Char, findSec hdrExec text = some block → findNums block = [] →
        (parse_medical_report text).executive_summary.top_health_priorities = [])
    ∧ (∀ text block : List Char, findSec hdrExec text = some block → findDashes block = [] →
        (parse_medical_report text).executive_summary.key_strengths = [])
    ∧ (∀ text : List Char, findSec hdrSys text = none →
        (parse_medical_report text).system_analysis = defaultSys)
    ∧ (∀ text sb : List Char, findSec hdrSys text = some sb →
        (parse_medical_report text).system_analysis
          = ⟨sysEntry (("Kidney Function Test").data) sb,
             sysEntry (("Basic Check-up").data) sb,
             sysEntry (("Hormone Profile").data) sb,
             sysEntry (("Liver Function Test").data) sb,
             sysEntry (("Diabetic Profile").data) sb,
             sysEntry (("Lipid Profile").data) sb,
             sysEntry (("Cardiac Profile").data) sb,
             sysEntry (("Mineral & Heavy Metal").data) sb,
             sysEntry (("Iron Profile").data) sb,
             sysEntry (("Bone Health").data) sb,
             sysEntry (("Vitamins").data) sb,
             sysEntry (("Thyroid Profile").data) sb,
             sysEntry (("Adrenal Function").data) sb,
             sysEntry (("Blood Marker Cancer Profile").data) sb,
             sysEntry (("Immune Profile").data) sb⟩)
    ∧ (∀ pat sysBlock : List Char, searchSub pat sysBlock = none →
        sysEntry pat sysBlock = emptySE)
    ∧ (∀ pat sysBlock blk : List Char, searchSub pat sysBlock = some blk →
        (searchStatus blk = none → (sysEntry pat sysBlock).status = (""))
        ∧ (searchExpl blk = none → (sysEntry pat sysBlock).explanation = ("")))
    ∧ (∀ text : List Char, findSec hdrPlan text = none →
        (parse_medical_report text).personalized_action_plan = ⟨(""), (""), (""), ("")⟩)
    ∧ (∀ text pb : List Char, findSec hdrPlan text = some pb →
        (parse_medical_report text).personalized_action_plan
          = ⟨planField (("nutrition").data) pb,
             planField (("lifestyle").data) pb,
             planField (("testing").data) pb,
             planField (("medical_consultation").data) pb⟩)
    ∧ (∀ field pb : List Char, searchPlan (planLabel field) pb = none →
        planField field pb = (""))
    ∧ (∀ text : List Char, findSecG hdrAlerts text = none →
        (parse_medical_report text).interaction_alerts = [])
    ∧ (∀ text ab : List Char, findSecG hdrAlerts text = some ab → findDashes ab = [] →
        (parse_medical_report text).interaction_alerts = []) := by
  refine ⟨parse_default_of_no_hashes [] (by decide),
    fun text hn => parse_default_of_no_hashes text hn,
    ?_, ?_, ?_, ?_, ?_, ?_, ?_, ?_, ?_, ?_, ?_, ?_⟩
  · intro text h
    unfold parse_medical_report
    rw [h]
  · intro text block h hnum
    unfold parse_medical_report
    rw [h]
    show (findNums block).map clean_line = []
    rw [hnum]
    rfl
  · intro text block h hdsh
    unfold parse_medical_report
    rw [h]
    show (findDashes block).map clean_line = []
    rw [hdsh]
    rfl
  · intro text h
    unfold parse_medical_report
    rw [h]
  · intro text sb h
    unfold parse_medical_report
    rw [h]
  · intro pat sysBlock h
    unfold sysEntry
    rw [h]
  · intro pat sysBlock blk h
    constructor
    · intro hs
      unfold sysEntry
      rw [h]
      show (match searchStatus blk with
            | some g => clean_line g
            | none => ("")) = ("")
      rw [hs]
    · intro he
      unfold sysEntry
      rw [h]
      show (match searchExpl blk with
            | some g => clean_line g
            | none => ("")) = ("")
      rw [he]
  · intro text h
    unfold parse_medical_report
    rw [h]
  · intro text pb h
    unfold parse_medical_report
    rw [h]
  · intro field pb h
    unfold planField
    rw [h]
  · intro text h
    unfold parse_medical_report
    rw [h]
  · intro text ab h hdsh
    unfold parse_medical_report
    rw [h]
    show (findDashes ab).map clean_line = []
    rw [hdsh]
    rfl

/-- Witness for C6: a text whose Executive Summary section is present but
contains no numbered item, whose other sections are absent, a system block
with no subsystem heading, and a plan block with no bolded label. -/
theorem parse_absent_defaults_witness :
    (findSec hdrExec (("### Executive Summary\nplain prose only").data)
        = some (("\nplain prose only").data))
    ∧ (findNums (("\nplain prose only").data) = [])
    ∧ ((parse_medical_report
          (("### Executive Summary\nplain prose only").data)).executive_summary.top_health_priorities
        = [])
    ∧ (findSec hdrSys (("### Executive Summary\nplain prose only").data) = none)
    ∧ ((parse_medical_report
          (("### Executive Summary\nplain prose only").data)).system_analysis = defaultSys)
    ∧ (searchSub (("Vitamins").data) (("no stars here").data) = none)
    ∧ (sysEntry (("Vitamins").data) (("no stars here").data) = emptySE)
    ∧ (searchPlan (planLabel (("nutrition").data)) (("no labels").data) = none)
    ∧ (planField (("nutrition").data) (("no labels").data) = ("")) := by
  obtain ⟨h1, h2, h3, h4, h5, h6, h7, h8, h9, h10, h11, h12, h13, h14⟩ :=
    parse_absent_defaults
  exact ⟨by decide, by decide,
    h4 (("### Executive Summary\nplain prose only").data) (("\nplain prose only").data)
      (by decide) (by decide),
    by decide,
    h6 (("### Executive Summary\nplain prose only").data) (by decide),
    by decide,
    h8 (("Vitamins").data) (("no stars here").data) (by decide),
    by decide,
    h12 (("nutrition").data) (("no labels").data) (by decide)⟩

/-- C7: parsing the text consisting only of "### Executive Summary", the line
"1. Improve sleep" and the line "- Good cholesterol" yields a record whose
top health priorities are exactly ["Improve sleep"], whose key strengths are
exactly ["Good cholesterol"], and every other field at its structural
default. -/
theorem parse_exec_scenario :
    parse_medical_report
        (("### Executive Summary\n1. Improve sleep\n- Good cholesterol").data)
      = { defaultReport with
          executive_summary := ⟨[("Improve sleep")], [("Good cholesterol")]⟩ } := by
  decide

/-- C8: in the Executive Summary section the strengths extraction matches a
hyphen at any position in a line, not only a leading dash bullet: for a
numbered item "1. <pre>-<post>" (pre starting with a non-whitespace character
and, like post, free of newlines, hashes, dashes and digits as relevant), the
full item text appears in top_health_priorities and the text following the
hyphen also appears as an entry of key_strengths. -/
theorem exec_dash_in_item (p0 : Char) (ptail post : List Char)
    (h0 : isWS p0 = false)
    (hpre : ∀ c ∈ p0 :: ptail, c ≠ '\n' ∧ c ≠ '#' ∧ c ≠ '-' ∧ c.isDigit = false)
    (hpost : ∀ c ∈ post, c ≠ '\n' ∧ c ≠ '#') :
    parse_medical_report
        ((("### Executive Summary\n1. ").data) ++ ((p0 :: ptail) ++ ('-' :: post)))
      = { defaultReport with
          executive_summary :=
            ⟨[clean_line ((p0 :: ptail) ++ '-' :: post)], [clean_line post]⟩ } :=
  exec_dash_strength p0 ptail post h0 hpre hpost

/-- Witness for C8 at the item "1. High-risk item". -/
theorem exec_dash_in_item_witness :
    (isWS 'H' = false)
    ∧ (∀ c ∈ 'H' :: ("igh").data, c ≠ '\n' ∧ c ≠ '#' ∧ c ≠ '-' ∧ c.isDigit = false)
    ∧ (∀ c ∈ ("risk item").data, c ≠ '\n' ∧ c ≠ '#')
    ∧ parse_medical_report
        ((("### Executive Summary\n1. ").data)
          ++ (('H' :: ("igh").data) ++ ('-' :: ("risk item").data)))
      = { defaultReport with
          executive_summary :=
            ⟨[clean_line (('H' :: ("igh").data) ++ '-' :: ("risk item").data)],
             [clean_line (("risk item").data)]⟩ } :=
  ⟨rfl, by decide, by decide,
    exec_dash_in_item 'H' (("igh").data) (("risk item").data) rfl (by decide) (by decide)⟩
